import Mathlib

/-!
# s3uploader: a model of `pkg/uploader/s3_uploader.go`

The development embeds `S3Uploader.Upload`, `simpleUpload` and
`multipartUpload` as total, executable Lean functions.

* Machine integers are mathematical integers reduced explicitly to their
  two's-complement range (`wrapInt64`, `wrapInt32`); `int` is taken to be 64 bits wide.
* The file system and the storage backend are an explicit `World`: one answer
  for every call the uploader can make.
* The `errgroup.Group` of `multipartUpload` is a small-step machine over the
  goroutines it launched.  A schedule (a list of numbers) picks, at every step,
  one of the events that are enabled, so that quantifying over schedules
  quantifies over the interleavings of the part tasks.
* Every backend call is appended to a trace, which the theorems count.
* A run-time panic (division by zero, negative length given to `make`, index
  out of range) ends the run with the outcome `panicked`; an allocation of a
  non-negative size always succeeds.
* A part task takes two events: it reads its part and issues `UploadPart`, then
  the call returns and the task stores its result.  Between the two the call
  is outstanding.
-/

namespace Uploader

/-! ## Machine integers -/

/-- Reduction of an integer to the two's-complement range of Go's `int64`. -/
def wrapInt64 (x : Int) : Int :=
  (x + 9223372036854775808) % 18446744073709551616 - 9223372036854775808

/-- Reduction of an integer to the two's-complement range of Go's `int32`. -/
def wrapInt32 (x : Int) : Int :=
  (x + 2147483648) % 4294967296 - 2147483648

/-! ## Errors -/

/-- Go error values.  `leaf` is an error produced outside the uploader (file
system, backend); `wrap` is `fmt.Errorf(format, [partNum,] inner)` with a `%w`
verb on a non-nil `inner`; `wrapNil` is `fmt.Errorf(format, nil)`, whose `%w`
formats as `%!w(<nil>)` and which wraps nothing. -/
inductive GoError where
  | leaf (id : Nat)
  | wrap (format : String) (partNum : Option Int) (inner : GoError)
  | wrapNil (format : String)
  deriving DecidableEq, Repr

/-- The error directly wrapped by an error (`errors.Unwrap`). -/
def GoError.Unwrap : GoError → Option GoError
  | .wrap _ _ inner => some inner
  | _ => none

/-- The unwrap chain of an error, the error itself first. -/
def GoError.chain : GoError → List GoError
  | .leaf id => [.leaf id]
  | .wrap format partNum inner => .wrap format partNum inner :: inner.chain
  | .wrapNil format => [.wrapNil format]

/-- Whether `target` is reachable through the unwrap chain of `err` (`errors.Is`). -/
def GoError.Is (err target : GoError) : Bool :=
  decide (target ∈ err.chain)

/-- The part numbers named by the contexts along the unwrap chain of an error. -/
def GoError.partNums : GoError → List Int
  | .leaf _ => []
  | .wrap _ partNum inner => partNum.toList ++ inner.partNums
  | .wrapNil _ => []

/-! ## Backend calls -/

/-- The `s3types.CompletedPart` fields the uploader sets; the Go zero value has both `nil`. -/
structure CompletedPart where
  ETag : Option String
  PartNumber : Option Int
  deriving DecidableEq, Repr

/-- One call made by the uploader to the backend, as recorded in the trace. -/
inductive Call where
  | PutObject
  | ObjectExistsWait
  | CreateMultipartUpload
  | UploadPart (uploadId : Option String) (partNumber : Int) (bodyLen : Int)
  | CompleteMultipartUpload (uploadId : Option String) (parts : List CompletedPart)
  | AbortMultipartUpload (uploadId : Option String)
  deriving DecidableEq, Repr

/-- Recogniser of `PutObject` calls. -/
def Call.isPutObject : Call → Bool
  | .PutObject => true
  | _ => false

/-- Recogniser of `CreateMultipartUpload` calls. -/
def Call.isCreateMultipartUpload : Call → Bool
  | .CreateMultipartUpload => true
  | _ => false

/-- Recogniser of `UploadPart` calls. -/
def Call.isUploadPart : Call → Bool
  | .UploadPart _ _ _ => true
  | _ => false

/-- Recogniser of `CompleteMultipartUpload` calls. -/
def Call.isCompleteMultipartUpload : Call → Bool
  | .CompleteMultipartUpload _ _ => true
  | _ => false

/-- Recogniser of `AbortMultipartUpload` calls. -/
def Call.isAbortMultipartUpload : Call → Bool
  | .AbortMultipartUpload _ => true
  | _ => false

/-- The lines `simpleUpload` writes with `log.Printf`. -/
inductive LogLine where
  | couldntUpload (err : GoError)
  | failedWait
  deriving DecidableEq, Repr

/-! ## The environment -/

/-- The file at `req.FilePath` and the answers of the backend.
`readErr i` is the error other than `io.EOF` of the `ReadAt` of the part task
of loop index `i`, `uploadPart i` the answer to the `UploadPart` call of that
task (its `ETag` on success). -/
structure World where
  size : Int
  statErr : Option GoError
  openErr : Option GoError
  readErr : Nat → Option GoError
  putObject : Option GoError
  objectExistsWait : Option GoError
  createMultipartUpload : Except GoError (Option String)
  uploadPart : Nat → Except GoError (Option String)
  completeMultipartUpload : List CompletedPart → Option GoError
  abortMultipartUpload : Option GoError

/-- The configuration `NewS3Uploader` receives. -/
structure S3Config where
  Region : String
  AccessKey : String
  SecretKey : String
  Url : String

/-- The fields of `S3Uploader` that drive `Upload` (the backend is the `World`,
the buffer pool hands out buffers of `partSize` bytes). -/
structure S3Uploader where
  partSize : Int
  concurrencyLimit : Int
  deriving DecidableEq, Repr

/-- The constructor: it stores both numbers as given and its error is always `nil`. -/
def NewS3Uploader (_cfg : S3Config) (partSize : Int) (concurrencyLimit : Int) :
    Except GoError S3Uploader :=
  .ok { partSize := partSize, concurrencyLimit := concurrencyLimit }

/-- How a call of `Upload` ends: it returns an error value (`none` is `nil`),
the process panics, the calling goroutine blocks forever inside `eg.Go`, or
(fuel exhausted) part tasks are still runnable. -/
inductive Outcome where
  | returned (err : Option GoError)
  | panicked
  | blocked
  | running
  deriving DecidableEq, Repr

/-- The observable result of `Upload`: outcome, trace of backend calls, log. -/
structure Result where
  outcome : Outcome
  calls : List Call
  logs : List LogLine
  deriving DecidableEq, Repr

/-! ## Single-shot path -/

/-- Model of `simpleUpload`: open, one `PutObject`, then the object-exists waiter
when the write succeeded; the function returns the last value assigned to `err`. -/
def simpleUpload (_u : S3Uploader) (w : World) : Result :=
  match w.openErr with
  | some e => ⟨.returned (some (.wrap "simpleUpload: %w" none e)), [], []⟩
  | none =>
    match w.putObject with
    | some e => ⟨.returned (some e), [.PutObject], [.couldntUpload e]⟩
    | none =>
      match w.objectExistsWait with
      | some e => ⟨.returned (some e), [.PutObject, .ObjectExistsWait], [.failedWait]⟩
      | none => ⟨.returned none, [.PutObject, .ObjectExistsWait], []⟩

/-! ## Multipart path -/

/-- The number of parts: `int((size + int64(partSize) - 1) / int64(partSize))`,
for a non-zero `partSize` (Go's `/` truncates towards zero). -/
def totalParts (u : S3Uploader) (size : Int) : Int :=
  wrapInt64 ((wrapInt64 (size + u.partSize - 1)).tdiv u.partSize)

/-- The part number of loop index `i`: `int32(i + 1)`. -/
def partNum (i : Nat) : Int :=
  wrapInt32 ((i : Int) + 1)

/-- The file offset of loop index `i`: `int64(u.partSize) * int64(i)`. -/
def offset (u : S3Uploader) (i : Nat) : Int :=
  wrapInt64 (u.partSize * (i : Int))

/-- The slot a part task writes: `partNum - 1`, computed in `int32`. -/
def slot (i : Nat) : Int :=
  wrapInt32 (partNum i - 1)

/-- Model of `file.ReadAt(buf, off)` on a file of `w.size` bytes with a buffer
of `bufLen` bytes: the number of bytes read, or an error other than `io.EOF`
(a negative offset is such an error). -/
def ReadAt (w : World) (bufLen : Int) (task : Nat) (off : Int) : Except GoError Int :=
  if off < 0 then .error (.leaf 0)
  else
    match w.readErr task with
    | some e => .error e
    | none => .ok (max 0 (min bufLen (w.size - off)))

/-- Where a launched part task stands: it has not issued its `UploadPart` call
yet, the call is outstanding (with a body of `read` bytes), or it has returned. -/
inductive Phase where
  | reading
  | uploading (read : Int)
  | finished
  deriving DecidableEq, Repr

/-- The state of the `errgroup.Group` and of what the part tasks share:
`tasks` holds the goroutines launched so far by loop index (its length is the
loop counter), `err` is the first error a task returned. -/
structure EgState where
  tasks : List Phase
  completedParts : List CompletedPart
  err : Option GoError
  calls : List Call
  panicked : Bool
  deriving DecidableEq, Repr

/-- A part task returns the error `e`: the group keeps the first error only. -/
def taskFail (st : EgState) (i : Nat) (e : GoError) : EgState :=
  { st with
    tasks := st.tasks.set i .finished
    err := match st.err with
      | some first => some first
      | none => some e }

/-- One step of the part task of loop index `i`.  From `reading`: take a buffer
(allocating `partSize` bytes panics for a negative size), read, and issue
`UploadPart` unless the read failed.  From `uploading`: the call returns, and on
success the task stores its `CompletedPart` (an index out of range panics). -/
def taskStep (u : S3Uploader) (w : World) (uploadId : Option String)
    (st : EgState) (i : Nat) : EgState :=
  match st.tasks[i]? with
  | some .reading =>
    if u.partSize < 0 then { st with panicked := true }
    else
      match ReadAt w u.partSize i (offset u i) with
      | .error e => taskFail st i (.wrap "part %d: %w" (some (partNum i)) e)
      | .ok read =>
        { st with
          tasks := st.tasks.set i (.uploading read)
          calls := st.calls ++ [.UploadPart uploadId (partNum i) read] }
  | some (.uploading _) =>
    match w.uploadPart i with
    | .error e => taskFail st i (.wrap "uploadPart #%d: %w" (some (partNum i)) e)
    | .ok etag =>
      if 0 ≤ slot i ∧ slot i < st.completedParts.length then
        { st with
          tasks := st.tasks.set i .finished
          completedParts :=
            st.completedParts.set (slot i).toNat ⟨etag, some (partNum i)⟩ }
      else { st with panicked := true }
  | _ => st

/-- The number of goroutines of the group that have not returned. -/
def active (tasks : List Phase) : Nat :=
  tasks.countP (fun p => decide (p ≠ .finished))

/-- The number of `UploadPart` calls that are outstanding. -/
def inFlight (tasks : List Phase) : Nat :=
  tasks.countP (fun p => match p with
    | .uploading _ => true
    | _ => false)

/-- Whether the loop may launch its next task with `eg.Go`: tasks remain, and
the semaphore set by `eg.SetLimit(u.concurrencyLimit)` has a free slot (a
negative limit is no limit, a limit of zero never has a free slot). -/
def canGo (u : S3Uploader) (n : Nat) (st : EgState) : Bool :=
  decide (st.tasks.length < n) &&
    (decide (u.concurrencyLimit < 0) ||
      decide ((active st.tasks : Int) < u.concurrencyLimit))

/-- The loop indexes of the launched tasks that have not returned. -/
def runnable (tasks : List Phase) : List Nat :=
  (List.range tasks.length).filter (fun i => decide (tasks[i]? ≠ some Phase.finished))

/-- The events of the group: the loop launches its next task, or a task takes a step. -/
inductive Ev where
  | Go
  | task (i : Nat)
  deriving DecidableEq, Repr

/-- The events that can happen in a state. -/
def enabled (u : S3Uploader) (n : Nat) (st : EgState) : List Ev :=
  (runnable st.tasks).map Ev.task ++ (if canGo u n st then [Ev.Go] else [])

/-- The event a scheduler choice `c` selects among the enabled ones. -/
def pick (evs : List Ev) (c : Nat) : Option Ev :=
  evs[c % evs.length]?

/-- The effect of an event. -/
def egStep (u : S3Uploader) (w : World) (uploadId : Option String)
    (st : EgState) : Ev → EgState
  | .Go => { st with tasks := st.tasks ++ [Phase.reading] }
  | .task i => taskStep u w uploadId st i

/-- Run the group for at most `fuel` events, the schedule choosing each one
(choice `0` once the schedule is used up); it stops when nothing is enabled or
after a panic. -/
def egRun (u : S3Uploader) (w : World) (uploadId : Option String) (n : Nat) :
    Nat → List Nat → EgState → EgState
  | 0, _, st => st
  | fuel + 1, sched, st =>
    if st.panicked then st
    else
      match pick (enabled u n st) (sched.headD 0) with
      | none => st
      | some ev => egRun u w uploadId n fuel sched.tail (egStep u w uploadId st ev)

/-- The group right after `eg.SetLimit`: no task launched, `n` zero-valued slots. -/
def egInit (n : Nat) (calls : List Call) : EgState :=
  { tasks := []
    completedParts := List.replicate n ⟨none, none⟩
    err := none
    calls := calls
    panicked := false }

/-- What `multipartUpload` does once the group has run: `eg.Wait()` returns when
every task was launched and has returned; a non-nil error leads to
`AbortMultipartUpload`, whose own result shadows `err`, otherwise
`CompleteMultipartUpload` is called with the collected parts. -/
def finish (u : S3Uploader) (w : World) (uploadId : Option String) (n : Nat)
    (st : EgState) : Result :=
  if st.panicked then ⟨.panicked, st.calls, []⟩
  else if !(enabled u n st).isEmpty then ⟨.running, st.calls, []⟩
  else if st.tasks.length < n then ⟨.blocked, st.calls, []⟩
  else
    match st.err with
    | some _ =>
      match w.abortMultipartUpload with
      | some a => ⟨.returned (some a), st.calls ++ [.AbortMultipartUpload uploadId], []⟩
      | none =>
        ⟨.returned (some (.wrapNil "multipartUpload: %w")),
          st.calls ++ [.AbortMultipartUpload uploadId], []⟩
    | none =>
      ⟨.returned (w.completeMultipartUpload st.completedParts),
        st.calls ++ [.CompleteMultipartUpload uploadId st.completedParts], []⟩

/-- Model of `multipartUpload`.  A division by zero and a negative length given
to `make` panic; three events per part are enough fuel for the group. -/
def multipartUpload (u : S3Uploader) (w : World) (sched : List Nat) (size : Int) : Result :=
  match w.openErr with
  | some e => ⟨.returned (some (.wrap "multipartUpload: %w" none e)), [], []⟩
  | none =>
    match w.createMultipartUpload with
    | .error e =>
      ⟨.returned (some (.wrap "create multipart: %w" none e)), [.CreateMultipartUpload], []⟩
    | .ok uploadId =>
      if u.partSize = 0 then ⟨.panicked, [.CreateMultipartUpload], []⟩
      else if totalParts u size < 0 then ⟨.panicked, [.CreateMultipartUpload], []⟩
      else
        let n := (totalParts u size).toNat
        finish u w uploadId n
          (egRun u w uploadId n (3 * n) sched (egInit n [.CreateMultipartUpload]))

/-- Model of `Upload`: stat the file, then the single-shot path when
`fileInfo.Size() <= int64(u.partSize)` and the multipart path otherwise. -/
def Upload (u : S3Uploader) (w : World) (sched : List Nat) : Result :=
  match w.statErr with
  | some e => ⟨.returned (some (.wrap "failed to stat file: %w" none e)), [], []⟩
  | none =>
    if w.size ≤ u.partSize then simpleUpload u w
    else multipartUpload u w sched w.size

/-! ## Worlds used by the examples -/

/-- A readable file of `size` bytes and a backend on which every call succeeds;
`UploadPart` answers the tag `etag-<part number>`, as the mock of the unit tests does. -/
def okWorld (size : Int) : World :=
  { size := size
    statErr := none
    openErr := none
    readErr := fun _ => none
    putObject := none
    objectExistsWait := none
    createMultipartUpload := .ok (some "upload-id")
    uploadPart := fun i => .ok (some ("etag-" ++ toString (i + 1)))
    completeMultipartUpload := fun _ => none
    abortMultipartUpload := none }

/-- The world `okWorld size` in which the `UploadPart` call of the task of loop
index `k` fails with `e` and `AbortMultipartUpload` answers `abortErr`. -/
def partFailWorld (size : Int) (k : Nat) (e : GoError) (abortErr : Option GoError) : World :=
  { okWorld size with
    uploadPart := fun i =>
      if i = k then .error e else .ok (some ("etag-" ++ toString (i + 1)))
    abortMultipartUpload := abortErr }

/-! ## Measures on the state of the group -/

/-- The events a launched task can still take. -/
def Phase.weight : Phase → Nat
  | .reading => 2
  | .uploading _ => 1
  | .finished => 0

/-- The events the launched tasks can still take. -/
def load (tasks : List Phase) : Nat :=
  (tasks.map Phase.weight).sum

/-- An upper bound on the events that can still happen: three for every task
not launched yet, plus the load of the launched ones. -/
def remaining (n : Nat) (st : EgState) : Nat :=
  3 * (n - st.tasks.length) + load st.tasks

/-- The number of launched tasks that have not issued their `UploadPart` call. -/
def stillReading (tasks : List Phase) : Nat :=
  tasks.countP (fun p => decide (p = .reading))

/-- The error the part task of loop index `i` returns when it runs to its end
(`none` when it returns `nil`): a failed read, else a failed `UploadPart`. -/
def taskErr (u : S3Uploader) (w : World) (i : Nat) : Option GoError :=
  match ReadAt w u.partSize i (offset u i) with
  | .error e => some (.wrap "part %d: %w" (some (partNum i)) e)
  | .ok _ =>
    match w.uploadPart i with
    | .error e => some (.wrap "uploadPart #%d: %w" (some (partNum i)) e)
    | .ok _ => none

/-! ## Invariants of the group -/

/-- Sizes and trace shape: the slice keeps its `n` slots, at most `n` tasks are
launched, and the group adds nothing but `UploadPart` calls to the trace. -/
def Shape (n : Nat) (st : EgState) : Prop :=
  st.completedParts.length = n ∧ st.tasks.length ≤ n ∧
    st.calls.countP Call.isPutObject = 0 ∧
    st.calls.countP Call.isCreateMultipartUpload = 1 ∧
    st.calls.countP Call.isCompleteMultipartUpload = 0 ∧
    st.calls.countP Call.isAbortMultipartUpload = 0

/-- The semaphore: a non-negative limit bounds the goroutines that have not returned. -/
def Limited (u : S3Uploader) (st : EgState) : Prop :=
  0 ≤ u.concurrencyLimit → (active st.tasks : Int) ≤ u.concurrencyLimit

/-- The group error is the error of a task that returned, and it is set as
soon as a failing task has returned. -/
def Faithful (u : S3Uploader) (w : World) (st : EgState) : Prop :=
  (∀ i r, st.tasks[i]? = some (Phase.uploading r) →
      ReadAt w u.partSize i (offset u i) = .ok r) ∧
    (∀ i, st.tasks[i]? = some Phase.finished → taskErr u w i ≠ none → st.err ≠ none) ∧
    (∀ e, st.err = some e → ∃ i, st.tasks[i]? = some Phase.finished ∧ taskErr u w i = some e)

/-- Every task that returned `nil` has stored its part in its own slot. -/
def Stored (u : S3Uploader) (w : World) (st : EgState) : Prop :=
  ∀ i etag, st.tasks[i]? = some Phase.finished → taskErr u w i = none →
    w.uploadPart i = .ok etag → st.completedParts[i]? = some ⟨etag, some (partNum i)⟩

/-- Every task that read its part has issued exactly its `UploadPart` call. -/
def Counted (u : S3Uploader) (w : World) (uploadId : Option String) (st : EgState) : Prop :=
  (∀ i r, st.tasks[i]? ≠ some Phase.reading → i < st.tasks.length →
      ReadAt w u.partSize i (offset u i) = .ok r →
      Call.UploadPart uploadId (partNum i) r ∈ st.calls) ∧
    ((∀ i, i < st.tasks.length → ∃ r, ReadAt w u.partSize i (offset u i) = .ok r) →
      st.calls.countP Call.isUploadPart + stillReading st.tasks = st.tasks.length)

/-- The length of the body the part task of loop index `i` uploads, `len(buf[:read])`
(zero when the read fails and nothing is uploaded). -/
def bodyLen (u : S3Uploader) (w : World) (i : Nat) : Int :=
  match ReadAt w u.partSize i (offset u i) with
  | .ok read => read
  | .error _ => 0

/-! ## The steps of the group, as a relation -/

/-- The seven ways in which an enabled event changes the state of the group. -/
inductive Step (u : S3Uploader) (w : World) (uploadId : Option String) (n : Nat) :
    EgState → EgState → Prop where
  | launch (st : EgState) (h : canGo u n st = true) :
      Step u w uploadId n st { st with tasks := st.tasks ++ [Phase.reading] }
  | allocPanic (st : EgState) (i : Nat) (hi : st.tasks[i]? = some Phase.reading)
      (hP : u.partSize < 0) :
      Step u w uploadId n st { st with panicked := true }
  | readFail (st : EgState) (i : Nat) (e : GoError) (hi : st.tasks[i]? = some Phase.reading)
      (hP : 0 ≤ u.partSize) (hr : ReadAt w u.partSize i (offset u i) = .error e) :
      Step u w uploadId n st (taskFail st i (.wrap "part %d: %w" (some (partNum i)) e))
  | readOk (st : EgState) (i : Nat) (read : Int) (hi : st.tasks[i]? = some Phase.reading)
      (hP : 0 ≤ u.partSize) (hr : ReadAt w u.partSize i (offset u i) = .ok read) :
      Step u w uploadId n st
        { st with
          tasks := st.tasks.set i (.uploading read)
          calls := st.calls ++ [.UploadPart uploadId (partNum i) read] }
  | uploadFail (st : EgState) (i : Nat) (r : Int) (e : GoError)
      (hi : st.tasks[i]? = some (Phase.uploading r)) (hu : w.uploadPart i = .error e) :
      Step u w uploadId n st (taskFail st i (.wrap "uploadPart #%d: %w" (some (partNum i)) e))
  | uploadOk (st : EgState) (i : Nat) (r : Int) (etag : Option String)
      (hi : st.tasks[i]? = some (Phase.uploading r)) (hu : w.uploadPart i = .ok etag)
      (hs : 0 ≤ slot i ∧ slot i < st.completedParts.length) :
      Step u w uploadId n st
        { st with
          tasks := st.tasks.set i .finished
          completedParts := st.completedParts.set (slot i).toNat ⟨etag, some (partNum i)⟩ }
  | storePanic (st : EgState) (i : Nat) (r : Int) (etag : Option String)
      (hi : st.tasks[i]? = some (Phase.uploading r)) (hu : w.uploadPart i = .ok etag)
      (hs : ¬ (0 ≤ slot i ∧ slot i < st.completedParts.length)) :
      Step u w uploadId n st { st with panicked := true }


/-! ## Events and steps -/

theorem mem_runnable {tasks : List Phase} {i : Nat} :
    i ∈ runnable tasks ↔ i < tasks.length ∧ tasks[i]? ≠ some Phase.finished := by
  simp [runnable, List.mem_filter]

theorem pick_mem {evs : List Ev} {c : Nat} {ev : Ev} (h : pick evs c = some ev) : ev ∈ evs :=
  List.getElem?_mem h

theorem pick_eq_none {evs : List Ev} {c : Nat} (h : pick evs c = none) : evs = [] := by
  cases evs with
  | nil => rfl
  | cons a l =>
    exfalso
    unfold pick at h
    rw [List.getElem?_eq_none_iff] at h
    have := Nat.mod_lt c (Nat.succ_pos l.length)
    simp only [List.length_cons, Nat.succ_eq_add_one] at h this
    omega

theorem mem_enabled {u : S3Uploader} {n : Nat} {st : EgState} {ev : Ev}
    (h : ev ∈ enabled u n st) :
    (ev = Ev.Go ∧ canGo u n st = true) ∨
      ∃ i, ev = Ev.task i ∧ i < st.tasks.length ∧ st.tasks[i]? ≠ some Phase.finished := by
  unfold enabled at h
  rcases List.mem_append.1 h with h | h
  · obtain ⟨i, hi, rfl⟩ := List.mem_map.1 h
    exact Or.inr ⟨i, rfl, mem_runnable.1 hi⟩
  · by_cases hc : canGo u n st = true
    · simp [hc] at h
      exact Or.inl ⟨h, hc⟩
    · simp [hc] at h

theorem step_of_enabled (u : S3Uploader) (w : World) (uploadId : Option String) (n : Nat)
    (st : EgState) (ev : Ev) (h : ev ∈ enabled u n st) :
    Step u w uploadId n st (egStep u w uploadId st ev) := by
  rcases mem_enabled h with ⟨rfl, hc⟩ | ⟨i, rfl, hlt, hne⟩
  · exact Step.launch st hc
  · have hsome : st.tasks[i]? = some st.tasks[i] := List.getElem?_eq_getElem hlt
    simp only [egStep, taskStep]
    cases hph : st.tasks[i] with
    | finished => rw [hph] at hsome; exact absurd hsome hne
    | reading =>
      rw [hph] at hsome
      rw [hsome]
      by_cases hP : u.partSize < 0
      · simp only [hP, if_true]
        exact Step.allocPanic st i hsome hP
      · simp only [hP, if_false]
        cases hr : ReadAt w u.partSize i (offset u i) with
        | error e => exact Step.readFail st i e hsome (not_lt.1 hP) hr
        | ok read => exact Step.readOk st i read hsome (not_lt.1 hP) hr
    | uploading r =>
      rw [hph] at hsome
      rw [hsome]
      cases hu : w.uploadPart i with
      | error e => exact Step.uploadFail st i r e hsome hu
      | ok etag =>
        by_cases hs : 0 ≤ slot i ∧ slot i < st.completedParts.length
        · simp only [hs, and_self, if_true]
          exact Step.uploadOk st i r etag hsome hu hs
        · simp only [hs, if_false]
          exact Step.storePanic st i r etag hsome hu hs

/-- A property that holds initially and is kept by every step from a state that
has not panicked holds in every state the group reaches. -/
theorem egRun_induct (u : S3Uploader) (w : World) (uploadId : Option String) (n : Nat)
    (I : EgState → Prop)
    (hstep : ∀ st st2, I st → st.panicked = false → Step u w uploadId n st st2 → I st2) :
    ∀ (fuel : Nat) (sched : List Nat) (st : EgState), I st →
      I (egRun u w uploadId n fuel sched st) := by
  intro fuel
  induction fuel with
  | zero => intro sched st h; simpa [egRun] using h
  | succ k ih =>
    intro sched st h
    unfold egRun
    by_cases hp : st.panicked = true
    · simp only [hp, if_true]; exact h
    · simp only [hp]
      cases hpk : pick (enabled u n st) (sched.headD 0) with
      | none => exact h
      | some ev =>
        exact ih _ _ (hstep st _ h (by simpa using hp) (step_of_enabled u w uploadId n st ev (pick_mem hpk)))

theorem sum_map_set {α : Type} (f : α → Nat) :
    ∀ (l : List α) (i : Nat) (a x : α), l[i]? = some a →
      ((l.set i x).map f).sum + f a = (l.map f).sum + f x := by
  intro l
  induction l with
  | nil => intro i a x h; simp at h
  | cons b l ih =>
    intro i a x h
    cases i with
    | zero =>
      simp only [List.getElem?_cons_zero, Option.some.injEq] at h
      subst h
      simp only [List.set_cons_zero, List.map_cons, List.sum_cons]
      omega
    | succ j =>
      simp only [List.getElem?_cons_succ] at h
      have := ih j a x h
      simp only [List.set_cons_succ, List.map_cons, List.sum_cons]
      omega

theorem countP_set {α : Type} (p : α → Bool) :
    ∀ (l : List α) (i : Nat) (a x : α), l[i]? = some a →
      (l.set i x).countP p + (if p a = true then 1 else 0)
        = l.countP p + (if p x = true then 1 else 0) := by
  intro l
  induction l with
  | nil => intro i a x h; simp at h
  | cons b l ih =>
    intro i a x h
    cases i with
    | zero =>
      simp only [List.getElem?_cons_zero, Option.some.injEq] at h
      subst h
      simp only [List.set_cons_zero, List.countP_cons]
      omega
    | succ j =>
      simp only [List.getElem?_cons_succ] at h
      have := ih j a x h
      simp only [List.set_cons_succ, List.countP_cons]
      omega

theorem load_set (tasks : List Phase) (i : Nat) (a x : Phase) (h : tasks[i]? = some a) :
    load (tasks.set i x) + a.weight = load tasks + x.weight :=
  sum_map_set Phase.weight tasks i a x h

theorem load_append_reading (tasks : List Phase) :
    load (tasks ++ [Phase.reading]) = load tasks + 2 := by
  simp [load, Phase.weight]

/-- When the load is zero every launched task has returned. -/
theorem finished_of_load_zero :
    ∀ (tasks : List Phase), load tasks = 0 → ∀ i, i < tasks.length →
      tasks[i]? = some Phase.finished := by
  intro tasks
  induction tasks with
  | nil => intro _ i hi; simp at hi
  | cons b l ih =>
    intro h i hi
    simp only [load, List.map_cons, List.sum_cons] at h
    have hb : b.weight = 0 := by omega
    have hl : load l = 0 := by unfold load; omega
    cases i with
    | zero =>
      cases b <;> simp_all [Phase.weight]
    | succ j =>
      simp only [List.getElem?_cons_succ]
      exact ih hl j (by simpa using hi)

theorem runnable_eq_nil {tasks : List Phase} :
    runnable tasks = [] ↔ ∀ i, i < tasks.length → tasks[i]? = some Phase.finished := by
  constructor
  · intro h i hi
    by_contra hne
    have : i ∈ runnable tasks := mem_runnable.2 ⟨hi, hne⟩
    rw [h] at this
    exact absurd this (List.not_mem_nil i)
  · intro h
    apply List.eq_nil_iff_forall_not_mem.2
    intro i hi
    obtain ⟨hlt, hne⟩ := mem_runnable.1 hi
    exact hne (h i hlt)

theorem active_eq_zero {tasks : List Phase}
    (h : ∀ i, i < tasks.length → tasks[i]? = some Phase.finished) : active tasks = 0 := by
  unfold active
  rw [List.countP_eq_zero]
  intro a ha
  obtain ⟨i, hi, rfl⟩ := List.getElem_of_mem ha
  have := h i hi
  rw [List.getElem?_eq_getElem hi] at this
  simp only [Option.some.injEq] at this
  simp [this]

theorem enabled_eq_nil {u : S3Uploader} {n : Nat} {st : EgState} :
    enabled u n st = [] ↔ runnable st.tasks = [] ∧ canGo u n st = false := by
  unfold enabled
  by_cases hc : canGo u n st = true
  · simp [hc]
  · simp [hc]

/-- With a limit other than zero, a group in which nothing is enabled has
launched all `n` tasks. -/
theorem all_launched {u : S3Uploader} {n : Nat} {st : EgState}
    (h : enabled u n st = []) (hL : u.concurrencyLimit ≠ 0) : n ≤ st.tasks.length := by
  obtain ⟨hr, hc⟩ := enabled_eq_nil.1 h
  have h0 := active_eq_zero (runnable_eq_nil.1 hr)
  by_contra hlt
  have hlt2 : st.tasks.length < n := by omega
  unfold canGo at hc
  rw [h0] at hc
  simp only [hlt2, decide_True, Bool.true_and, Bool.or_eq_false_iff, decide_eq_false_iff_not] at hc
  have := hc.1
  have := hc.2
  simp at *
  omega

theorem egRun_panicked (u : S3Uploader) (w : World) (uploadId : Option String) (n : Nat)
    (fuel : Nat) (sched : List Nat) (st : EgState) (h : st.panicked = true) :
    egRun u w uploadId n fuel sched st = st := by
  cases fuel with
  | zero => rfl
  | succ k => simp [egRun, h]

/-- Every step that does not panic uses up one of the remaining events. -/
theorem step_remaining {u : S3Uploader} {w : World} {uploadId : Option String} {n : Nat}
    {st st2 : EgState} (h : Step u w uploadId n st st2) (hp : st2.panicked = false) :
    remaining n st2 < remaining n st := by
  cases h with
  | launch h =>
    unfold canGo at h
    simp only [Bool.and_eq_true, decide_eq_true_eq] at h
    have := h.1
    simp only [remaining, List.length_append, List.length_singleton, load_append_reading]
    omega
  | allocPanic i hi hP => simp at hp
  | readFail i e hi hP hr =>
    have := load_set st.tasks i _ Phase.finished hi
    simp only [remaining, taskFail, List.length_set, Phase.weight] at this ⊢
    omega
  | readOk i read hi hP hr =>
    have := load_set st.tasks i _ (Phase.uploading read) hi
    simp only [remaining, List.length_set, Phase.weight] at this ⊢
    omega
  | uploadFail i r e hi hu =>
    have := load_set st.tasks i _ Phase.finished hi
    simp only [remaining, taskFail, List.length_set, Phase.weight] at this ⊢
    omega
  | uploadOk i r etag hi hu hs =>
    have := load_set st.tasks i _ Phase.finished hi
    simp only [remaining, List.length_set, Phase.weight] at this ⊢
    omega
  | storePanic i r etag hi hu hs => simp at hp

theorem enabled_nil_of_remaining_zero {u : S3Uploader} {n : Nat} {st : EgState}
    (h : remaining n st = 0) : enabled u n st = [] := by
  unfold remaining at h
  have h1 : load st.tasks = 0 := by omega
  have h2 : ¬ st.tasks.length < n := by omega
  refine enabled_eq_nil.2 ⟨runnable_eq_nil.2 (finished_of_load_zero _ h1), ?_⟩
  simp [canGo, h2]

/-- Fuel adequacy: with at least `remaining` fuel the group runs until nothing
is enabled, unless it panics first. -/
theorem egRun_settles (u : S3Uploader) (w : World) (uploadId : Option String) (n : Nat) :
    ∀ (fuel : Nat) (sched : List Nat) (st : EgState), remaining n st ≤ fuel →
      (egRun u w uploadId n fuel sched st).panicked = true ∨
        enabled u n (egRun u w uploadId n fuel sched st) = [] := by
  intro fuel
  induction fuel with
  | zero =>
    intro sched st h
    right
    simp only [egRun]
    exact enabled_nil_of_remaining_zero (by omega)
  | succ k ih =>
    intro sched st h
    unfold egRun
    by_cases hp : st.panicked = true
    · rw [if_pos hp]; exact Or.inl hp
    · rw [if_neg hp]
      cases hpk : pick (enabled u n st) (sched.headD 0) with
      | none => exact Or.inr (pick_eq_none hpk)
      | some ev =>
        simp only []
        have hs := step_of_enabled u w uploadId n st ev (pick_mem hpk)
        by_cases hp2 : (egStep u w uploadId st ev).panicked = true
        · rw [egRun_panicked _ _ _ _ _ _ _ hp2]; exact Or.inl hp2
        · have := step_remaining hs (by simpa using hp2)
          exact ih _ _ (by omega)

theorem remaining_egInit (n : Nat) (calls : List Call) : remaining n (egInit n calls) = 3 * n := by
  simp [remaining, egInit, load]

/-! ## Preservation of the invariants -/

theorem lt_of_get_some {α : Type} {l : List α} {i : Nat} {a : α} (h : l[i]? = some a) :
    i < l.length := by
  by_contra hn
  rw [List.getElem?_eq_none (by omega)] at h
  exact absurd h (by simp)

theorem get_append_single {α : Type} {l : List α} {i : Nat} {a b : α}
    (h : (l ++ [b])[i]? = some a) (hne : a ≠ b) : l[i]? = some a := by
  rw [List.getElem?_append] at h
  by_cases hi : i < l.length
  · simpa [hi] using h
  · simp only [hi, if_false] at h
    have : i - l.length = 0 := by
      by_contra h0
      rw [List.getElem?_eq_none (by simp; omega)] at h
      exact absurd h (by simp)
    rw [this] at h
    simp only [List.getElem?_cons_zero, Option.some.injEq] at h
    exact absurd h.symm hne

theorem get_set_cases {α : Type} {l : List α} {i j : Nat} {a x : α}
    (h : (l.set j x)[i]? = some a) : (i = j ∧ a = x) ∨ (i ≠ j ∧ l[i]? = some a) := by
  rw [List.getElem?_set] at h
  by_cases hij : j = i
  · subst hij
    by_cases hl : j < l.length
    · simp only [hl, if_true, Option.some.injEq] at h
      exact Or.inl ⟨rfl, h.symm⟩
    · simp [hl] at h
  · simp only [hij, if_false] at h
    exact Or.inr ⟨fun e => hij e.symm, h⟩

theorem shape_egInit (n : Nat) : Shape n (egInit n [Call.CreateMultipartUpload]) := by
  simp [Shape, egInit, Call.isPutObject, Call.isCreateMultipartUpload,
    Call.isCompleteMultipartUpload, Call.isAbortMultipartUpload]

theorem shape_step {u : S3Uploader} {w : World} {uploadId : Option String} {n : Nat}
    {st st2 : EgState} (hI : Shape n st) (h : Step u w uploadId n st st2) : Shape n st2 := by
  obtain ⟨h1, h2, h3, h4, h5, h6⟩ := hI
  cases h with
  | launch h =>
    unfold canGo at h
    simp only [Bool.and_eq_true, decide_eq_true_eq] at h
    have := h.1
    refine ⟨h1, ?_, h3, h4, h5, h6⟩
    simp only [List.length_append, List.length_singleton]
    omega
  | allocPanic i hi hP => exact ⟨h1, h2, h3, h4, h5, h6⟩
  | readFail i e hi hP hr =>
    exact ⟨h1, by simpa [taskFail] using h2, h3, h4, h5, h6⟩
  | readOk i read hi hP hr =>
    refine ⟨h1, by simpa using h2, ?_, ?_, ?_, ?_⟩ <;>
      simp [List.countP_append, Call.isPutObject, Call.isCreateMultipartUpload,
        Call.isCompleteMultipartUpload, Call.isAbortMultipartUpload, h3, h4, h5, h6]
  | uploadFail i r e hi hu =>
    exact ⟨h1, by simpa [taskFail] using h2, h3, h4, h5, h6⟩
  | uploadOk i r etag hi hu hs =>
    exact ⟨by simpa using h1, by simpa using h2, h3, h4, h5, h6⟩
  | storePanic i r etag hi hu hs => exact ⟨h1, h2, h3, h4, h5, h6⟩

theorem active_append_reading (tasks : List Phase) :
    active (tasks ++ [Phase.reading]) = active tasks + 1 := by
  simp [active, List.countP_append]

theorem active_set_le (tasks : List Phase) (i : Nat) (a x : Phase) (h : tasks[i]? = some a)
    (ha : a ≠ Phase.finished) : active (tasks.set i x) ≤ active tasks := by
  have := countP_set (fun p => decide (p ≠ Phase.finished)) tasks i a x h
  rw [if_pos (by simpa using ha)] at this
  unfold active
  split at this <;> omega

theorem limited_egInit (u : S3Uploader) (n : Nat) (calls : List Call) :
    Limited u (egInit n calls) := by
  intro h
  simpa [egInit, active] using h

theorem limited_step {u : S3Uploader} {w : World} {uploadId : Option String} {n : Nat}
    {st st2 : EgState} (hI : Limited u st) (h : Step u w uploadId n st st2) : Limited u st2 := by
  intro hL
  have h0 := hI hL
  cases h with
  | launch h =>
    unfold canGo at h
    simp only [Bool.and_eq_true, decide_eq_true_eq, Bool.or_eq_true] at h
    simp only [active_append_reading]
    have := h.2
    push_cast
    omega
  | allocPanic i hi hP => exact h0
  | readFail i e hi hP hr =>
    have := active_set_le st.tasks i _ Phase.finished hi (by simp)
    simp only [taskFail]
    omega
  | readOk i read hi hP hr =>
    have := active_set_le st.tasks i _ (Phase.uploading read) hi (by simp)
    simp only []
    omega
  | uploadFail i r e hi hu =>
    have := active_set_le st.tasks i _ Phase.finished hi (by simp)
    simp only [taskFail]
    omega
  | uploadOk i r etag hi hu hs =>
    have := active_set_le st.tasks i _ Phase.finished hi (by simp)
    simp only []
    omega
  | storePanic i r etag hi hu hs => exact h0

theorem inFlight_le_active (tasks : List Phase) : inFlight tasks ≤ active tasks := by
  unfold inFlight active
  apply List.countP_mono_left
  intro p _ hp
  cases p <;> simp_all

theorem get_append_of_get {α : Type} {l : List α} {i : Nat} {a : α} (b : α)
    (h : l[i]? = some a) : (l ++ [b])[i]? = some a := by
  rw [List.getElem?_append, if_pos (lt_of_get_some h)]
  exact h

theorem get_set_self {α : Type} {l : List α} {j : Nat} (x : α) (h : j < l.length) :
    (l.set j x)[j]? = some x := by
  rw [List.getElem?_set]
  simp [h]

theorem get_set_of_ne {α : Type} {l : List α} {i j : Nat} (x : α) (h : i ≠ j) :
    (l.set j x)[i]? = l[i]? := by
  rw [List.getElem?_set, if_neg (fun e => h e.symm)]

theorem get_set_keep {α : Type} {l : List α} {i j : Nat} {a b : α} (x : α)
    (hi : l[i]? = some a) (hj : l[j]? = some b) (hab : a ≠ b) :
    (l.set j x)[i]? = some a := by
  have hne : i ≠ j := by
    rintro rfl
    rw [hi] at hj
    exact hab (Option.some.inj hj)
  rw [get_set_of_ne x hne]
  exact hi

theorem taskErr_of_read_error {u : S3Uploader} {w : World} {i : Nat} {e : GoError}
    (hr : ReadAt w u.partSize i (offset u i) = .error e) :
    taskErr u w i = some (.wrap "part %d: %w" (some (partNum i)) e) := by
  simp [taskErr, hr]

theorem taskErr_of_upload_error {u : S3Uploader} {w : World} {i : Nat} {r : Int}
    {e : GoError} (hr : ReadAt w u.partSize i (offset u i) = .ok r)
    (hu : w.uploadPart i = .error e) :
    taskErr u w i = some (.wrap "uploadPart #%d: %w" (some (partNum i)) e) := by
  simp [taskErr, hr, hu]

theorem taskErr_of_ok {u : S3Uploader} {w : World} {i : Nat} {r : Int}
    {etag : Option String} (hr : ReadAt w u.partSize i (offset u i) = .ok r)
    (hu : w.uploadPart i = .ok etag) : taskErr u w i = none := by
  simp [taskErr, hr, hu]

theorem faithful_egInit (u : S3Uploader) (w : World) (n : Nat) (calls : List Call) :
    Faithful u w (egInit n calls) := by
  simp [Faithful, egInit]

/-- The three parts of `Faithful` after a task returned the error `e2`. -/
theorem faithful_taskFail {u : S3Uploader} {w : World} {st : EgState} {j : Nat} {a : Phase}
    {e2 : GoError} (hI : Faithful u w st) (hj : st.tasks[j]? = some a)
    (ha : a ≠ Phase.finished) (he : taskErr u w j = some e2) :
    Faithful u w (taskFail st j e2) := by
  obtain ⟨f1, f2, f3⟩ := hI
  refine ⟨?_, ?_, ?_⟩
  · intro i r hi
    rcases get_set_cases hi with ⟨_, h⟩ | ⟨_, h⟩
    · exact absurd h (by simp)
    · exact f1 i r h
  · intro i _ _
    simp only [taskFail]
    cases st.err <;> simp
  · intro e hes
    simp only [taskFail] at hes ⊢
    cases hse : st.err with
    | some first =>
      rw [hse] at hes
      simp only [Option.some.injEq] at hes
      subst hes
      obtain ⟨i0, h0, h0e⟩ := f3 first hse
      exact ⟨i0, get_set_keep _ h0 hj (fun e => ha e.symm), h0e⟩
    | none =>
      rw [hse] at hes
      simp only [Option.some.injEq] at hes
      subst hes
      exact ⟨j, get_set_self _ (lt_of_get_some hj), he⟩

theorem faithful_step {u : S3Uploader} {w : World} {uploadId : Option String} {n : Nat}
    {st st2 : EgState} (hI : Faithful u w st) (h : Step u w uploadId n st st2) :
    Faithful u w st2 := by
  cases h with
  | launch h =>
    obtain ⟨f1, f2, f3⟩ := hI
    refine ⟨?_, ?_, ?_⟩
    · intro i r hi
      exact f1 i r (get_append_single hi (by simp))
    · intro i hi
      exact f2 i (get_append_single hi (by simp))
    · intro e hes
      obtain ⟨i0, h0, h0e⟩ := f3 e hes
      exact ⟨i0, get_append_of_get _ h0, h0e⟩
  | allocPanic i hi hP => exact hI
  | readFail j e hj hP hr =>
    exact faithful_taskFail hI hj (by simp) (taskErr_of_read_error hr)
  | readOk j read hj hP hr =>
    obtain ⟨f1, f2, f3⟩ := hI
    refine ⟨?_, ?_, ?_⟩
    · intro i r hi
      rcases get_set_cases hi with ⟨rfl, h⟩ | ⟨_, h⟩
      · simp only [Phase.uploading.injEq] at h
        subst h
        exact hr
      · exact f1 i r h
    · intro i hi
      rcases get_set_cases hi with ⟨_, h⟩ | ⟨_, h⟩
      · exact absurd h (by simp)
      · exact f2 i h
    · intro e hes
      obtain ⟨i0, h0, h0e⟩ := f3 e hes
      exact ⟨i0, get_set_keep _ h0 hj (by simp), h0e⟩
  | uploadFail j r e hj hu =>
    exact faithful_taskFail hI hj (by simp) (taskErr_of_upload_error (hI.1 j r hj) hu)
  | uploadOk j r etag hj hu hs =>
    obtain ⟨f1, f2, f3⟩ := hI
    refine ⟨?_, ?_, ?_⟩
    · intro i r2 hi
      rcases get_set_cases hi with ⟨_, h⟩ | ⟨_, h⟩
      · exact absurd h (by simp)
      · exact f1 i r2 h
    · intro i hi hne
      rcases get_set_cases hi with ⟨rfl, _⟩ | ⟨_, h⟩
      · exact absurd (taskErr_of_ok (f1 i r hj) hu) hne
      · exact f2 i h hne
    · intro e hes
      obtain ⟨i0, h0, h0e⟩ := f3 e hes
      exact ⟨i0, get_set_keep _ h0 hj (by simp), h0e⟩
  | storePanic i r etag hi hu hs => exact hI

theorem slot_eq (i : Nat) (h : (i : Int) < 2147483648) : slot i = (i : Int) := by
  unfold slot partNum wrapInt32
  omega

theorem stored_egInit (u : S3Uploader) (w : World) (n : Nat) (calls : List Call) :
    Stored u w (egInit n calls) := by
  simp [Stored, egInit]

theorem stored_step {u : S3Uploader} {w : World} {uploadId : Option String} {n : Nat}
    {st st2 : EgState} (hn : n ≤ 2147483648) (hS : Shape n st) (hI : Stored u w st)
    (h : Step u w uploadId n st st2) : Stored u w st2 := by
  cases h with
  | launch h =>
    intro i etag hi
    exact hI i etag (get_append_single hi (by simp))
  | allocPanic i hi hP => exact hI
  | readFail j e hj hP hr =>
    intro i etag hi hne hu
    rcases get_set_cases hi with ⟨rfl, _⟩ | ⟨_, h⟩
    · rw [taskErr_of_read_error hr] at hne
      exact absurd hne (by simp)
    · exact hI i etag h hne hu
  | readOk j read hj hP hr =>
    intro i etag hi hne hu
    rcases get_set_cases hi with ⟨_, h⟩ | ⟨_, h⟩
    · exact absurd h (by simp)
    · exact hI i etag h hne hu
  | uploadFail j r e hj hu =>
    intro i etag hi hne hu2
    rcases get_set_cases hi with ⟨rfl, _⟩ | ⟨_, h⟩
    · rw [hu] at hu2
      exact absurd hu2 (by simp)
    · exact hI i etag h hne hu2
  | uploadOk j r etag2 hj hu hs =>
    intro i etag hi hne hu2
    have hjlt : j < n := lt_of_lt_of_le (lt_of_get_some hj) hS.2.1
    have hslot : (slot j).toNat = j := by
      rw [slot_eq j (by omega)]
      simp
    simp only [hslot]
    rcases get_set_cases hi with ⟨rfl, _⟩ | ⟨hij, h⟩
    · rw [hu] at hu2
      simp only [Except.ok.injEq] at hu2
      subst hu2
      exact get_set_self _ (by rw [hS.1]; exact hjlt)
    · rw [get_set_of_ne _ hij]
      exact hI i etag h hne hu2
  | storePanic i r etag hi hu hs => exact hI

/-- Without a negative part size and with at most `2^31` parts no step panics. -/
theorem noPanic_step {u : S3Uploader} {w : World} {uploadId : Option String} {n : Nat}
    {st st2 : EgState} (hP : 0 ≤ u.partSize) (hn : n ≤ 2147483648) (hS : Shape n st)
    (hp : st.panicked = false) (h : Step u w uploadId n st st2) : st2.panicked = false := by
  cases h with
  | launch h => exact hp
  | allocPanic i hi hP2 => omega
  | readFail j e hj hP hr => exact hp
  | readOk j read hj hP hr => exact hp
  | uploadFail j r e hj hu => exact hp
  | uploadOk j r etag2 hj hu hs => exact hp
  | storePanic j r etag hj hu hs =>
    exfalso
    apply hs
    have hjlt : j < n := lt_of_lt_of_le (lt_of_get_some hj) hS.2.1
    rw [slot_eq j (by omega), hS.1]
    omega

theorem stillReading_append_reading (tasks : List Phase) :
    stillReading (tasks ++ [Phase.reading]) = stillReading tasks + 1 := by
  simp [stillReading, List.countP_append]

theorem stillReading_set (tasks : List Phase) (i : Nat) (a x : Phase) (h : tasks[i]? = some a) :
    stillReading (tasks.set i x) + (if a = Phase.reading then 1 else 0)
      = stillReading tasks + (if x = Phase.reading then 1 else 0) := by
  have := countP_set (fun p => decide (p = Phase.reading)) tasks i a x h
  simpa [stillReading] using this

theorem counted_egInit (u : S3Uploader) (w : World) (uploadId : Option String) (n : Nat)
    (calls : List Call) (hc : calls.countP Call.isUploadPart = 0) :
    Counted u w uploadId (egInit n calls) := by
  simp [Counted, egInit, stillReading, hc]

theorem counted_step {u : S3Uploader} {w : World} {uploadId : Option String} {n : Nat}
    {st st2 : EgState} (hI : Counted u w uploadId st) (h : Step u w uploadId n st st2) :
    Counted u w uploadId st2 := by
  obtain ⟨c1, c2⟩ := hI
  cases h with
  | launch h =>
    refine ⟨?_, ?_⟩
    · intro i r hne hlt hr
      simp only [List.length_append, List.length_singleton] at hlt
      by_cases hi : i < st.tasks.length
      · refine c1 i r ?_ hi hr
        intro hread
        exact hne (get_append_of_get _ hread)
      · exfalso
        apply hne
        have : i = st.tasks.length := by omega
        subst this
        simp
    · intro hall
      simp only [List.length_append, List.length_singleton] at hall ⊢
      have := c2 (fun i hi => hall i (by omega))
      rw [stillReading_append_reading]
      omega
  | allocPanic i hi hP => exact ⟨c1, c2⟩
  | readFail j e hj hP hr =>
    refine ⟨?_, ?_⟩
    · intro i r hne hlt hr2
      simp only [taskFail, List.length_set] at hne hlt ⊢
      by_cases hij : i = j
      · subst hij
        rw [hr] at hr2
        exact absurd hr2 (by simp)
      · rw [get_set_of_ne _ hij] at hne
        exact c1 i r hne hlt hr2
    · intro hall
      simp only [taskFail, List.length_set] at hall
      obtain ⟨r, hr2⟩ := hall j (lt_of_get_some hj)
      rw [hr] at hr2
      exact absurd hr2 (by simp)
  | readOk j read hj hP hr =>
    refine ⟨?_, ?_⟩
    · intro i r hne hlt hr2
      simp only [List.length_set] at hne hlt ⊢
      by_cases hij : i = j
      · subst hij
        rw [hr] at hr2
        simp only [Except.ok.injEq] at hr2
        subst hr2
        simp
      · rw [get_set_of_ne _ hij] at hne
        exact List.mem_append_left _ (c1 i r hne hlt hr2)
    · intro hall
      simp only [List.length_set] at hall ⊢
      have h1 := c2 hall
      have h2 := stillReading_set st.tasks j _ (Phase.uploading read) hj
      simp only [if_true, reduceCtorEq, if_false] at h2
      simp only [List.countP_append, List.countP_cons, List.countP_nil, Call.isUploadPart, if_true]
      omega
  | uploadFail j r e hj hu =>
    refine ⟨?_, ?_⟩
    · intro i r2 hne hlt hr2
      simp only [taskFail, List.length_set] at hne hlt ⊢
      by_cases hij : i = j
      · subst hij
        exact c1 i r2 (by rw [hj]; simp) hlt hr2
      · rw [get_set_of_ne _ hij] at hne
        exact c1 i r2 hne hlt hr2
    · intro hall
      simp only [taskFail, List.length_set] at hall ⊢
      have h1 := c2 hall
      have h2 := stillReading_set st.tasks j _ Phase.finished hj
      simp only [reduceCtorEq, if_false] at h2
      omega
  | uploadOk j r etag2 hj hu hs =>
    refine ⟨?_, ?_⟩
    · intro i r2 hne hlt hr2
      simp only [List.length_set] at hne hlt ⊢
      by_cases hij : i = j
      · subst hij
        exact c1 i r2 (by rw [hj]; simp) hlt hr2
      · rw [get_set_of_ne _ hij] at hne
        exact c1 i r2 hne hlt hr2
    · intro hall
      simp only [List.length_set] at hall ⊢
      have h1 := c2 hall
      have h2 := stillReading_set st.tasks j _ Phase.finished hj
      simp only [reduceCtorEq, if_false] at h2
      omega
  | storePanic i r etag hi hu hs => exact ⟨c1, c2⟩

/-! ## The reachable states -/

/-- All invariants hold in every state the group reaches from its initial state. -/
theorem egRun_invariants (u : S3Uploader) (w : World) (uploadId : Option String) (n : Nat)
    (fuel : Nat) (sched : List Nat) :
    Shape n (egRun u w uploadId n fuel sched (egInit n [Call.CreateMultipartUpload])) ∧
      Limited u (egRun u w uploadId n fuel sched (egInit n [Call.CreateMultipartUpload])) ∧
      Faithful u w (egRun u w uploadId n fuel sched (egInit n [Call.CreateMultipartUpload])) ∧
      Counted u w uploadId
        (egRun u w uploadId n fuel sched (egInit n [Call.CreateMultipartUpload])) := by
  refine egRun_induct u w uploadId n
    (fun st => Shape n st ∧ Limited u st ∧ Faithful u w st ∧ Counted u w uploadId st)
    ?_ fuel sched _ ⟨shape_egInit n, limited_egInit u n _, faithful_egInit u w n _,
      counted_egInit u w uploadId n _ (by simp [Call.isUploadPart])⟩
  rintro st st2 ⟨h1, h2, h3, h4⟩ _ hstep
  exact ⟨shape_step h1 hstep, limited_step h2 hstep, faithful_step h3 hstep,
    counted_step h4 hstep⟩

/-- With at most `2^31` parts, every task that returned `nil` has its part stored. -/
theorem egRun_stored (u : S3Uploader) (w : World) (uploadId : Option String) (n : Nat)
    (hn : n ≤ 2147483648) (fuel : Nat) (sched : List Nat) :
    Stored u w (egRun u w uploadId n fuel sched (egInit n [Call.CreateMultipartUpload])) := by
  have := egRun_induct u w uploadId n (fun st => Shape n st ∧ Stored u w st)
    (by
      rintro st st2 ⟨h1, h2⟩ _ hstep
      exact ⟨shape_step h1 hstep, stored_step hn h1 h2 hstep⟩)
    fuel sched _ ⟨shape_egInit n, stored_egInit u w n _⟩
  exact this.2

/-- Without a negative part size and with at most `2^31` parts the group never panics. -/
theorem egRun_noPanic (u : S3Uploader) (w : World) (uploadId : Option String) (n : Nat)
    (hP : 0 ≤ u.partSize) (hn : n ≤ 2147483648) (fuel : Nat) (sched : List Nat) :
    (egRun u w uploadId n fuel sched (egInit n [Call.CreateMultipartUpload])).panicked
      = false := by
  have := egRun_induct u w uploadId n (fun st => Shape n st ∧ st.panicked = false)
    (by
      rintro st st2 ⟨h1, h2⟩ _ hstep
      exact ⟨shape_step h1 hstep, noPanic_step hP hn h1 h2 hstep⟩)
    fuel sched _ ⟨shape_egInit n, rfl⟩
  exact this.2

/-! ## Arithmetic of the part plan -/

theorem wrapInt64_eq (x : Int) (h1 : -9223372036854775808 ≤ x) (h2 : x < 9223372036854775808) :
    wrapInt64 x = x := by
  unfold wrapInt64
  omega

theorem wrapInt32_eq (x : Int) (h1 : -2147483648 ≤ x) (h2 : x < 2147483648) :
    wrapInt32 x = x := by
  unfold wrapInt32
  omega

/-- Without overflow the number of parts is the rounded-up quotient. -/
theorem totalParts_spec (u : S3Uploader) (size : Int) (hP : 1 ≤ u.partSize)
    (hS : u.partSize < size) (h64 : size + u.partSize ≤ 9223372036854775808) :
    totalParts u size = (size + u.partSize - 1) / u.partSize ∧
      (totalParts u size - 1) * u.partSize < size ∧
      size ≤ totalParts u size * u.partSize ∧ 2 ≤ totalParts u size := by
  have hw : wrapInt64 (size + u.partSize - 1) = size + u.partSize - 1 :=
    wrapInt64_eq _ (by omega) (by omega)
  have hq0 : 0 ≤ (size + u.partSize - 1) / u.partSize :=
    Int.ediv_nonneg (by omega) (by omega)
  have hq1 : (size + u.partSize - 1) / u.partSize ≤ size + u.partSize - 1 :=
    Int.ediv_le_self _ (by omega)
  have heq : totalParts u size = (size + u.partSize - 1) / u.partSize := by
    unfold totalParts
    rw [hw, Int.tdiv_eq_ediv (by omega) (by omega)]
    exact wrapInt64_eq _ (by omega) (by omega)
  have hdm := Int.emod_add_ediv (size + u.partSize - 1) u.partSize
  have hm0 := Int.emod_nonneg (size + u.partSize - 1) (show u.partSize ≠ 0 by omega)
  have hm1 := Int.emod_lt_of_pos (size + u.partSize - 1) (show 0 < u.partSize by omega)
  rw [← heq] at hdm
  have hmul : totalParts u size * u.partSize = u.partSize * totalParts u size := Int.mul_comm _ _
  refine ⟨heq, ?_, ?_, ?_⟩
  · rw [Int.sub_mul, hmul]; omega
  · rw [hmul]; omega
  · by_contra hlt
    have h1 : totalParts u size ≤ 1 := by omega
    have : u.partSize * totalParts u size ≤ u.partSize * 1 :=
      Int.mul_le_mul_of_nonneg_left h1 (by omega)
    omega

/-- The number of parts is `ceil(size / partSize)`. -/
theorem totalParts_eq_ceil (u : S3Uploader) (size : Int) (hP : 1 ≤ u.partSize)
    (hS : u.partSize < size) (h64 : size + u.partSize ≤ 9223372036854775808) :
    totalParts u size = ⌈(size : ℚ) / (u.partSize : ℚ)⌉ := by
  obtain ⟨_, h1, h2, _⟩ := totalParts_spec u size hP hS h64
  symm
  rw [Int.ceil_eq_iff]
  have hPq : (0 : ℚ) < (u.partSize : ℚ) := by exact_mod_cast (show (0 : Int) < u.partSize by omega)
  constructor
  · rw [lt_div_iff₀ hPq]
    exact_mod_cast h1
  · rw [div_le_iff₀ hPq]
    exact_mod_cast h2

/-- Below the number of parts the offset does not overflow and lies inside the file. -/
theorem offset_spec (u : S3Uploader) (size : Int) (hP : 1 ≤ u.partSize)
    (hS : u.partSize < size) (h64 : size + u.partSize ≤ 9223372036854775808)
    (i : Nat) (hi : (i : Int) < totalParts u size) :
    offset u i = (i : Int) * u.partSize ∧ 0 ≤ (i : Int) * u.partSize ∧
      (i : Int) * u.partSize < size := by
  obtain ⟨_, h1, _, _⟩ := totalParts_spec u size hP hS h64
  have hle : (i : Int) * u.partSize ≤ (totalParts u size - 1) * u.partSize :=
    Int.mul_le_mul_of_nonneg_right (by omega) (by omega)
  have h0 : 0 ≤ (i : Int) * u.partSize := Int.mul_nonneg (by omega) (by omega)
  refine ⟨?_, h0, by omega⟩
  unfold offset
  rw [Int.mul_comm]
  exact wrapInt64_eq _ (by omega) (by omega)

/-- The read of part `i` of a readable file returns `min(partSize, size - offset)` bytes. -/
theorem readAt_spec (u : S3Uploader) (w : World) (hP : 1 ≤ u.partSize)
    (hS : u.partSize < w.size) (h64 : w.size + u.partSize ≤ 9223372036854775808)
    (i : Nat) (hi : (i : Int) < totalParts u w.size) (hr : w.readErr i = none) :
    ReadAt w u.partSize i (offset u i)
      = .ok (min u.partSize (w.size - (i : Int) * u.partSize)) := by
  obtain ⟨h1, h2, h3⟩ := offset_spec u w.size hP hS h64 i hi
  unfold ReadAt
  rw [h1, if_neg (by omega), hr]
  simp only [Except.ok.injEq]
  omega

theorem partNum_eq (i : Nat) (h : (i : Int) + 1 < 2147483648) : partNum i = (i : Int) + 1 := by
  unfold partNum
  exact wrapInt32_eq _ (by omega) h

/-- The lengths of the first `k` parts add up to `min(k * partSize, size)`. -/
theorem sum_lengths (u : S3Uploader) (size : Int) (hP : 1 ≤ u.partSize)
    (hS : u.partSize < size) (h64 : size + u.partSize ≤ 9223372036854775808) :
    ∀ k : Nat, (k : Int) ≤ totalParts u size →
      ((List.range k).map
        (fun i : Nat => min u.partSize (size - (i : Int) * u.partSize))).sum
        = min ((k : Int) * u.partSize) size := by
  intro k
  induction k with
  | zero => intro _; simp; omega
  | succ k ih =>
    intro hk
    have hk2 : (k : Int) < totalParts u size := by push_cast at hk; omega
    obtain ⟨_, _, h3⟩ := offset_spec u size hP hS h64 k hk2
    rw [List.sum_range_succ, ih (by omega)]
    have : ((k + 1 : Nat) : Int) * u.partSize = (k : Int) * u.partSize + u.partSize := by
      push_cast; ring
    rw [this]
    omega

/-- The length of the last part in terms of `size mod partSize`. -/
theorem last_length (u : S3Uploader) (size : Int) (hP : 1 ≤ u.partSize)
    (hS : u.partSize < size) (h64 : size + u.partSize ≤ 9223372036854775808) :
    size - (totalParts u size - 1) * u.partSize
      = if size % u.partSize = 0 then u.partSize else size % u.partSize := by
  obtain ⟨_, h1, h2, _⟩ := totalParts_spec u size hP hS h64
  have hexp : totalParts u size * u.partSize
      = (totalParts u size - 1) * u.partSize + u.partSize := by ring
  have hmod : size % u.partSize
      = (size - (totalParts u size - 1) * u.partSize) % u.partSize := by
    have : size = (size - (totalParts u size - 1) * u.partSize)
        + (totalParts u size - 1) * u.partSize := by ring
    conv_lhs => rw [this]
    exact Int.add_mul_emod_self
  by_cases hfull : size - (totalParts u size - 1) * u.partSize = u.partSize
  · rw [hmod, hfull, Int.emod_self, if_pos rfl]
  · have hlt : size - (totalParts u size - 1) * u.partSize < u.partSize := by omega
    have hval : size % u.partSize = size - (totalParts u size - 1) * u.partSize := by
      rw [hmod]
      exact Int.emod_eq_of_lt (by omega) hlt
    rw [hval, if_neg (by omega)]

/-! ## The end of `multipartUpload` -/

/-- The state in which the group of `multipartUpload` ends. -/
theorem multipartUpload_unfold (u : S3Uploader) (w : World) (sched : List Nat) (size : Int)
    (uploadId : Option String) (hopen : w.openErr = none)
    (hcreate : w.createMultipartUpload = .ok uploadId) (hP : u.partSize ≠ 0)
    (hn : 0 ≤ totalParts u size) :
    multipartUpload u w sched size
      = finish u w uploadId (totalParts u size).toNat
          (egRun u w uploadId (totalParts u size).toNat (3 * (totalParts u size).toNat) sched
            (egInit (totalParts u size).toNat [Call.CreateMultipartUpload])) := by
  unfold multipartUpload
  rw [hopen, hcreate]
  simp only [hP, if_false, not_lt.2 hn]

/-- The group of `multipartUpload` ends in a panic or with nothing enabled. -/
theorem group_end (u : S3Uploader) (w : World) (uploadId : Option String) (n : Nat)
    (sched : List Nat) :
    (egRun u w uploadId n (3 * n) sched (egInit n [Call.CreateMultipartUpload])).panicked = true ∨
      enabled u n (egRun u w uploadId n (3 * n) sched (egInit n [Call.CreateMultipartUpload]))
        = [] :=
  egRun_settles u w uploadId n (3 * n) sched _ (by rw [remaining_egInit])

theorem finish_returned {u : S3Uploader} {w : World} {uploadId : Option String} {n : Nat}
    {st : EgState} {e : Option GoError} (h : (finish u w uploadId n st).outcome = .returned e) :
    st.panicked = false ∧ enabled u n st = [] ∧ n ≤ st.tasks.length := by
  unfold finish at h
  by_cases hp : st.panicked = true
  · simp [hp] at h
  · by_cases he : (enabled u n st).isEmpty = true
    · by_cases hl : st.tasks.length < n
      · simp [hp, he, hl] at h
      · exact ⟨by simpa using hp, by simpa using he, by omega⟩
    · simp [hp, he] at h

theorem finish_abort {u : S3Uploader} {w : World} {uploadId : Option String} {n : Nat}
    {st : EgState} {e : GoError} (hp : st.panicked = false) (he : enabled u n st = [])
    (hl : n ≤ st.tasks.length) (herr : st.err = some e) :
    finish u w uploadId n st
      = ⟨.returned (some (match w.abortMultipartUpload with
            | some a => a
            | none => GoError.wrapNil "multipartUpload: %w")),
          st.calls ++ [Call.AbortMultipartUpload uploadId], []⟩ := by
  unfold finish
  rw [if_neg (by simp [hp]), if_neg (by simp [he]), if_neg (by omega), herr]
  cases w.abortMultipartUpload <;> rfl

theorem finish_complete {u : S3Uploader} {w : World} {uploadId : Option String} {n : Nat}
    {st : EgState} (hp : st.panicked = false) (he : enabled u n st = [])
    (hl : n ≤ st.tasks.length) (herr : st.err = none) :
    finish u w uploadId n st
      = ⟨.returned (w.completeMultipartUpload st.completedParts),
          st.calls ++ [Call.CompleteMultipartUpload uploadId st.completedParts], []⟩ := by
  unfold finish
  rw [if_neg (by simp [hp]), if_neg (by simp [he]), if_neg (by omega), herr]

/-- Whatever the end, `finish` adds at most one call to the trace of the group,
and never a `PutObject`, `CreateMultipartUpload` or `UploadPart` call. -/
theorem finish_calls (u : S3Uploader) (w : World) (uploadId : Option String) (n : Nat)
    (st : EgState) :
    (finish u w uploadId n st).calls = st.calls ∨
      (finish u w uploadId n st).calls = st.calls ++ [Call.AbortMultipartUpload uploadId] ∨
      (finish u w uploadId n st).calls
        = st.calls ++ [Call.CompleteMultipartUpload uploadId st.completedParts] := by
  unfold finish
  split
  · exact Or.inl rfl
  · split
    · exact Or.inl rfl
    · split
      · exact Or.inl rfl
      · split
        · split
          · exact Or.inr (Or.inl rfl)
          · exact Or.inr (Or.inl rfl)
        · exact Or.inr (Or.inr rfl)

/-- When the file opens, the multipart path issues exactly one
`CreateMultipartUpload` call and no `PutObject` call. -/
theorem multipartUpload_counts (u : S3Uploader) (w : World) (sched : List Nat) (size : Int)
    (hopen : w.openErr = none) :
    (multipartUpload u w sched size).calls.countP Call.isPutObject = 0 ∧
      (multipartUpload u w sched size).calls.countP Call.isCreateMultipartUpload = 1 := by
  cases hc : w.createMultipartUpload with
  | error e =>
    simp [multipartUpload, hopen, hc, Call.isPutObject, Call.isCreateMultipartUpload]
  | ok uploadId =>
    by_cases hP : u.partSize = 0
    · simp [multipartUpload, hopen, hc, hP, Call.isPutObject, Call.isCreateMultipartUpload]
    · by_cases hn : totalParts u size < 0
      · simp [multipartUpload, hopen, hc, hP, hn, Call.isPutObject,
          Call.isCreateMultipartUpload]
      · rw [multipartUpload_unfold u w sched size uploadId hopen hc hP (by omega)]
        obtain ⟨⟨_, _, h3, h4, _, _⟩, _⟩ := egRun_invariants u w uploadId
          (totalParts u size).toNat (3 * (totalParts u size).toNat) sched
        rcases finish_calls u w uploadId (totalParts u size).toNat
          (egRun u w uploadId (totalParts u size).toNat (3 * (totalParts u size).toNat) sched
            (egInit (totalParts u size).toNat [Call.CreateMultipartUpload])) with h | h | h <;>
          rw [h] <;>
          simp [List.countP_append, h3, h4, Call.isPutObject, Call.isCreateMultipartUpload]

/-- When nothing is enabled and all tasks were launched, all of them have returned. -/
theorem all_finished {u : S3Uploader} {n : Nat} {st : EgState} (he : enabled u n st = [])
    (i : Nat) (hi : i < st.tasks.length) : st.tasks[i]? = some Phase.finished :=
  runnable_eq_nil.1 (enabled_eq_nil.1 he).1 i hi

/-! ## C1 -/

/-- C1. For a file that can be stat-ed and opened, `Upload` takes the
single-shot path exactly when `size <= partSize` (the boundary included) and the
multipart path exactly when `size > partSize`; the single-shot path issues
exactly one `PutObject` call and no multipart call, the multipart path issues
no `PutObject` call and one `CreateMultipartUpload` call. -/
theorem C1_upload_path_selection (u : S3Uploader) (w : World) (sched : List Nat)
    (hstat : w.statErr = none) (hopen : w.openErr = none) :
    (Upload u w sched = simpleUpload u w ↔ w.size ≤ u.partSize) ∧
      (Upload u w sched = multipartUpload u w sched w.size ↔ u.partSize < w.size) ∧
      (w.size ≤ u.partSize →
        (Upload u w sched).calls.countP Call.isPutObject = 1 ∧
        (Upload u w sched).calls.countP Call.isCreateMultipartUpload = 0 ∧
        (Upload u w sched).calls.countP Call.isUploadPart = 0 ∧
        (Upload u w sched).calls.countP Call.isCompleteMultipartUpload = 0 ∧
        (Upload u w sched).calls.countP Call.isAbortMultipartUpload = 0) ∧
      (u.partSize < w.size →
        (Upload u w sched).calls.countP Call.isPutObject = 0 ∧
        (Upload u w sched).calls.countP Call.isCreateMultipartUpload = 1) := by
  have hsimple : (simpleUpload u w).calls.countP Call.isPutObject = 1 ∧
      (simpleUpload u w).calls.countP Call.isCreateMultipartUpload = 0 ∧
      (simpleUpload u w).calls.countP Call.isUploadPart = 0 ∧
      (simpleUpload u w).calls.countP Call.isCompleteMultipartUpload = 0 ∧
      (simpleUpload u w).calls.countP Call.isAbortMultipartUpload = 0 := by
    unfold simpleUpload
    rw [hopen]
    cases w.putObject <;> cases w.objectExistsWait <;>
      simp [Call.isPutObject, Call.isCreateMultipartUpload, Call.isUploadPart,
        Call.isCompleteMultipartUpload, Call.isAbortMultipartUpload]
  have hmulti := multipartUpload_counts u w sched w.size hopen
  have hne : simpleUpload u w ≠ multipartUpload u w sched w.size := by
    intro heq
    have h1 := hsimple.1
    rw [heq, hmulti.1] at h1
    exact absurd h1 (by decide)
  by_cases hle : w.size ≤ u.partSize
  · have hU : Upload u w sched = simpleUpload u w := by
      unfold Upload
      rw [hstat]
      simp only [hle, if_true]
    refine ⟨⟨fun _ => hle, fun _ => hU⟩, ⟨fun h => ?_, fun h => ?_⟩, fun _ => ?_, fun h => ?_⟩
    · rw [hU] at h
      exact absurd h hne
    · omega
    · rw [hU]
      exact hsimple
    · omega
  · have hU : Upload u w sched = multipartUpload u w sched w.size := by
      unfold Upload
      rw [hstat]
      simp only [hle, if_false]
    refine ⟨⟨fun h => ?_, fun h => absurd h hle⟩, ⟨fun _ => by omega, fun _ => hU⟩,
      fun h => absurd h hle, fun _ => ?_⟩
    · rw [hU] at h
      exact absurd h.symm hne
    · rw [hU]
      exact hmulti

/-- Witness of C1: a 5-byte file with a part size of 5 bytes. -/
theorem C1_upload_path_selection_witness :
    (okWorld 5).statErr = none ∧ (okWorld 5).openErr = none ∧
      ((Upload ⟨5, 2⟩ (okWorld 5) [] = simpleUpload ⟨5, 2⟩ (okWorld 5)
          ↔ (okWorld 5).size ≤ (5 : Int)) ∧
        (Upload ⟨5, 2⟩ (okWorld 5) [] = multipartUpload ⟨5, 2⟩ (okWorld 5) [] (okWorld 5).size
          ↔ (5 : Int) < (okWorld 5).size) ∧
        ((okWorld 5).size ≤ (5 : Int) →
          (Upload ⟨5, 2⟩ (okWorld 5) []).calls.countP Call.isPutObject = 1 ∧
          (Upload ⟨5, 2⟩ (okWorld 5) []).calls.countP Call.isCreateMultipartUpload = 0 ∧
          (Upload ⟨5, 2⟩ (okWorld 5) []).calls.countP Call.isUploadPart = 0 ∧
          (Upload ⟨5, 2⟩ (okWorld 5) []).calls.countP Call.isCompleteMultipartUpload = 0 ∧
          (Upload ⟨5, 2⟩ (okWorld 5) []).calls.countP Call.isAbortMultipartUpload = 0) ∧
        ((5 : Int) < (okWorld 5).size →
          (Upload ⟨5, 2⟩ (okWorld 5) []).calls.countP Call.isPutObject = 0 ∧
          (Upload ⟨5, 2⟩ (okWorld 5) []).calls.countP Call.isCreateMultipartUpload = 1)) :=
  ⟨rfl, rfl, C1_upload_path_selection ⟨5, 2⟩ (okWorld 5) [] rfl rfl⟩

/-! ## C2 -/

theorem stillReading_eq_zero {tasks : List Phase}
    (h : ∀ i, i < tasks.length → tasks[i]? = some Phase.finished) : stillReading tasks = 0 := by
  unfold stillReading
  rw [List.countP_eq_zero]
  intro a ha
  obtain ⟨i, hi, rfl⟩ := List.getElem_of_mem ha
  have := h i hi
  rw [List.getElem?_eq_getElem hi] at this
  simp only [Option.some.injEq] at this
  simp [this]

/-- Without overflow, with a limit other than zero, the group of a multipart
upload ends with all `n` tasks launched and returned, whatever the schedule. -/
theorem group_settles (u : S3Uploader) (w : World) (uploadId : Option String) (n : Nat)
    (sched : List Nat) (hP : 0 ≤ u.partSize) (hn : n ≤ 2147483648)
    (hL : u.concurrencyLimit ≠ 0) :
    (egRun u w uploadId n (3 * n) sched (egInit n [Call.CreateMultipartUpload])).panicked = false ∧
      enabled u n (egRun u w uploadId n (3 * n) sched (egInit n [Call.CreateMultipartUpload]))
        = [] ∧
      (egRun u w uploadId n (3 * n) sched (egInit n [Call.CreateMultipartUpload])).tasks.length
        = n := by
  have hp := egRun_noPanic u w uploadId n hP hn (3 * n) sched
  have he : enabled u n (egRun u w uploadId n (3 * n) sched
      (egInit n [Call.CreateMultipartUpload])) = [] := by
    rcases group_end u w uploadId n sched with h | h
    · rw [hp] at h
      exact absurd h (by simp)
    · exact h
  have hsh := (egRun_invariants u w uploadId n (3 * n) sched).1
  exact ⟨hp, he, le_antisymm hsh.2.1 (all_launched he hL)⟩

/-- C2, amended.  For a readable file of `size > partSize >= 1` with
`size + partSize <= 2^63` and fewer than `2^31` parts, a limit of at least one
and a backend on which every call succeeds, `Upload` returns `nil` under every
schedule and issues exactly one `CreateMultipartUpload`, exactly
`ceil(size / partSize)` (at least two) `UploadPart` calls, no `PutObject`, no
`AbortMultipartUpload` and exactly one `CompleteMultipartUpload`, whose parts
list has at index `k` the part number `k + 1` with the tag the backend returned
for that part. -/
theorem C2_multipart_success (u : S3Uploader) (w : World) (uploadId : Option String)
    (etag : Nat → Option String) (sched : List Nat)
    (hP : 1 ≤ u.partSize) (hS : u.partSize < w.size)
    (h64 : w.size + u.partSize ≤ 9223372036854775808)
    (h32 : totalParts u w.size < 2147483648)
    (hL : 1 ≤ u.concurrencyLimit)
    (hstat : w.statErr = none) (hopen : w.openErr = none)
    (hread : ∀ i, w.readErr i = none)
    (hcreate : w.createMultipartUpload = .ok uploadId)
    (hupload : ∀ i, w.uploadPart i = .ok (etag i))
    (hcomplete : ∀ parts, w.completeMultipartUpload parts = none) :
    (Upload u w sched).outcome = .returned none ∧
      totalParts u w.size = ⌈(w.size : ℚ) / (u.partSize : ℚ)⌉ ∧
      2 ≤ totalParts u w.size ∧
      (Upload u w sched).calls.countP Call.isCreateMultipartUpload = 1 ∧
      ((Upload u w sched).calls.countP Call.isUploadPart : Int) = totalParts u w.size ∧
      (Upload u w sched).calls.countP Call.isPutObject = 0 ∧
      (Upload u w sched).calls.countP Call.isAbortMultipartUpload = 0 ∧
      (Upload u w sched).calls.countP Call.isCompleteMultipartUpload = 1 ∧
      Call.CompleteMultipartUpload uploadId
          ((List.range (totalParts u w.size).toNat).map
            (fun k : Nat => (⟨etag k, some ((k : Int) + 1)⟩ : CompletedPart)))
        ∈ (Upload u w sched).calls := by
  obtain ⟨_, _, _, h2⟩ := totalParts_spec u w.size hP hS h64
  have hn0 : 0 ≤ totalParts u w.size := by omega
  have hU : Upload u w sched = multipartUpload u w sched w.size := by
    unfold Upload
    rw [hstat, if_neg (by omega)]
  rw [hU, multipartUpload_unfold u w sched w.size uploadId hopen hcreate (by omega) hn0]
  generalize hnd : (totalParts u w.size).toNat = n
  have hnI : (n : Int) = totalParts u w.size := by rw [← hnd]; exact Int.toNat_of_nonneg hn0
  obtain ⟨hp, he, hlen⟩ := group_settles u w uploadId n sched (by omega) (by omega)
    (show u.concurrencyLimit ≠ 0 by omega)
  obtain ⟨⟨hcp, _, s3, s4, s5, s6⟩, _, ⟨_, _, f3⟩, ⟨_, c2⟩⟩ :=
    egRun_invariants u w uploadId n (3 * n) sched
  have hst := egRun_stored u w uploadId n (by omega) (3 * n) sched
  generalize egRun u w uploadId n (3 * n) sched (egInit n [Call.CreateMultipartUpload]) = st
    at hp he hlen hcp s3 s4 s5 s6 f3 c2 hst
  have hreadOk : ∀ i, i < n →
      ReadAt w u.partSize i (offset u i)
        = .ok (min u.partSize (w.size - (i : Int) * u.partSize)) := fun i hi =>
    readAt_spec u w hP hS h64 i (by omega) (hread i)
  have hnoErr : ∀ i, i < n → taskErr u w i = none := fun i hi =>
    taskErr_of_ok (hreadOk i hi) (hupload i)
  have herr : st.err = none := by
    cases hse : st.err with
    | none => rfl
    | some e =>
      obtain ⟨i, hi, hie⟩ := f3 e hse
      rw [hnoErr i (by have := lt_of_get_some hi; omega)] at hie
      exact absurd hie (by simp)
  have hfin : ∀ i, i < st.tasks.length → st.tasks[i]? = some Phase.finished :=
    fun i hi => all_finished he i hi
  have hparts : st.completedParts
      = (List.range n).map (fun k : Nat => (⟨etag k, some ((k : Int) + 1)⟩ : CompletedPart)) := by
    apply List.ext_getElem?
    intro i
    by_cases hi : i < n
    · rw [hst i (etag i) (hfin i (by omega)) (hnoErr i hi) (hupload i),
        partNum_eq i (by omega)]
      simp [List.getElem?_map, List.getElem?_range hi]
    · rw [List.getElem?_eq_none (by omega), List.getElem?_eq_none (by simp; omega)]
  have hcount : st.calls.countP Call.isUploadPart = n := by
    have := c2 (fun i hi => ⟨_, hreadOk i (by omega)⟩)
    rw [stillReading_eq_zero hfin] at this
    omega
  rw [finish_complete hp he (by omega) herr, hcomplete]
  refine ⟨rfl, totalParts_eq_ceil u w.size hP hS h64, h2, ?_, ?_, ?_, ?_, ?_, ?_⟩
  · simp [List.countP_append, s4, Call.isCreateMultipartUpload]
  · simp only [List.countP_append, List.countP_cons, List.countP_nil, Call.isUploadPart, hcount]
    simp [hnI]
  · simp [List.countP_append, s3, Call.isPutObject]
  · simp [List.countP_append, s6, Call.isAbortMultipartUpload]
  · simp [List.countP_append, s5, Call.isCompleteMultipartUpload]
  · rw [hparts]
    simp

/-- Witness of C2: an 11-byte file, parts of 5 bytes, two tasks at a time. -/
theorem C2_multipart_success_witness :
    (Upload ⟨5, 2⟩ (okWorld 11) [1, 0, 2, 1, 0, 3]).outcome = .returned none ∧
      totalParts ⟨5, 2⟩ (okWorld 11).size
        = ⌈((okWorld 11).size : ℚ) / (((⟨5, 2⟩ : S3Uploader).partSize : Int) : ℚ)⌉ ∧
      2 ≤ totalParts ⟨5, 2⟩ (okWorld 11).size ∧
      (Upload ⟨5, 2⟩ (okWorld 11) [1, 0, 2, 1, 0, 3]).calls.countP
        Call.isCreateMultipartUpload = 1 ∧
      ((Upload ⟨5, 2⟩ (okWorld 11) [1, 0, 2, 1, 0, 3]).calls.countP Call.isUploadPart : Int)
        = totalParts ⟨5, 2⟩ (okWorld 11).size ∧
      (Upload ⟨5, 2⟩ (okWorld 11) [1, 0, 2, 1, 0, 3]).calls.countP Call.isPutObject = 0 ∧
      (Upload ⟨5, 2⟩ (okWorld 11) [1, 0, 2, 1, 0, 3]).calls.countP
        Call.isAbortMultipartUpload = 0 ∧
      (Upload ⟨5, 2⟩ (okWorld 11) [1, 0, 2, 1, 0, 3]).calls.countP
        Call.isCompleteMultipartUpload = 1 ∧
      Call.CompleteMultipartUpload (some "upload-id")
          ((List.range (totalParts ⟨5, 2⟩ (okWorld 11).size).toNat).map
            (fun k : Nat =>
              (⟨some ("etag-" ++ toString (k + 1)), some ((k : Int) + 1)⟩ : CompletedPart)))
        ∈ (Upload ⟨5, 2⟩ (okWorld 11) [1, 0, 2, 1, 0, 3]).calls :=
  C2_multipart_success ⟨5, 2⟩ (okWorld 11) (some "upload-id")
    (fun k => some ("etag-" ++ toString (k + 1))) [1, 0, 2, 1, 0, 3]
    (by decide) (by decide) (by decide) (by decide) (by decide) rfl rfl (fun _ => rfl) rfl
    (fun _ => rfl) (fun _ => rfl)

/-- Counterexample to C2 as stated: with `size = 2^63 - 1` and
`partSize = 2^63 - 2` the sum `size + partSize - 1` overflows `int64`, the loop
runs zero times and `CompleteMultipartUpload` is called with an empty parts
list, although `ceil(size / partSize) = 2`.  (With `2^31` parts of one byte the
part number of the last slot is `int32(2^31) = -2^31`.) -/
theorem C2_counterexample :
    (1 : Int) ≤ 9223372036854775806 ∧
      (9223372036854775806 : Int) < (okWorld 9223372036854775807).size ∧
      ⌈((9223372036854775807 : Int) : ℚ) / ((9223372036854775806 : Int) : ℚ)⌉ = 2 ∧
      (Upload ⟨9223372036854775806, 1⟩ (okWorld 9223372036854775807) []).outcome
        = .returned none ∧
      (Upload ⟨9223372036854775806, 1⟩ (okWorld 9223372036854775807) []).calls
        = [Call.CreateMultipartUpload, Call.CompleteMultipartUpload (some "upload-id") []] ∧
      (Upload ⟨9223372036854775806, 1⟩ (okWorld 9223372036854775807) []).calls.countP
        Call.isUploadPart = 0 ∧
      totalParts ⟨1, 1⟩ 2147483648 = 2147483648 ∧
      partNum 2147483647 = -2147483648 := by
  refine ⟨by decide, by decide, ?_, by decide, by decide, by decide, by decide, by decide⟩
  rw [Int.ceil_eq_iff]
  norm_num

/-! ## C3 -/

/-- With a limit other than zero and without overflow, the `UploadPart` call of
every part whose read succeeds is in the trace of `Upload`, whatever the schedule. -/
theorem uploadPart_issued (u : S3Uploader) (w : World) (uploadId : Option String)
    (sched : List Nat) (hP : 1 ≤ u.partSize) (hS : u.partSize < w.size)
    (h64 : w.size + u.partSize ≤ 9223372036854775808)
    (h32 : totalParts u w.size ≤ 2147483648) (hL : u.concurrencyLimit ≠ 0)
    (hstat : w.statErr = none) (hopen : w.openErr = none)
    (hcreate : w.createMultipartUpload = .ok uploadId)
    (i : Nat) (hi : (i : Int) < totalParts u w.size) (r : Int)
    (hr : ReadAt w u.partSize i (offset u i) = .ok r) :
    Call.UploadPart uploadId (partNum i) r ∈ (Upload u w sched).calls := by
  obtain ⟨_, _, _, h2⟩ := totalParts_spec u w.size hP hS h64
  have hn0 : 0 ≤ totalParts u w.size := by omega
  have hU : Upload u w sched = multipartUpload u w sched w.size := by
    unfold Upload
    rw [hstat, if_neg (by omega)]
  rw [hU, multipartUpload_unfold u w sched w.size uploadId hopen hcreate (by omega) hn0]
  generalize hnd : (totalParts u w.size).toNat = n
  have hnI : (n : Int) = totalParts u w.size := by rw [← hnd]; exact Int.toNat_of_nonneg hn0
  obtain ⟨_, he, hlen⟩ := group_settles u w uploadId n sched (by omega) (by omega) hL
  obtain ⟨_, _, _, ⟨c1, _⟩⟩ := egRun_invariants u w uploadId n (3 * n) sched
  have hin := c1 i r
    (by rw [all_finished he i (by omega)]; simp) (by omega) hr
  rcases finish_calls u w uploadId n
    (egRun u w uploadId n (3 * n) sched (egInit n [Call.CreateMultipartUpload])) with h | h | h <;>
    rw [h]
  · exact hin
  · exact List.mem_append_left _ hin
  · exact List.mem_append_left _ hin

/-- C3, amended.  For a readable file of `size > partSize >= 1` with
`size + partSize <= 2^63` and fewer than `2^31` parts, the multipart path plans
`ceil(size / partSize) = (size + partSize - 1) / partSize` parts; the part of
loop index `i` (the `i+1`-th part) has part number `i + 1`, offset
`i * partSize` and a body of `min(partSize, size - offset)` bytes, which is
`partSize` for every part but the last and `size mod partSize` (or `partSize`
when that is zero) for the last; and with a limit other than zero the
`UploadPart` call with that number and length is issued under every schedule. -/
theorem C3_part_plan (u : S3Uploader) (w : World)
    (hP : 1 ≤ u.partSize) (hS : u.partSize < w.size)
    (h64 : w.size + u.partSize ≤ 9223372036854775808)
    (h32 : totalParts u w.size < 2147483648)
    (hread : ∀ i, w.readErr i = none) :
    totalParts u w.size = ⌈(w.size : ℚ) / (u.partSize : ℚ)⌉ ∧
      totalParts u w.size = (w.size + u.partSize - 1) / u.partSize ∧
      (∀ i : Nat, (i : Int) < totalParts u w.size →
        partNum i = (i : Int) + 1 ∧
        offset u i = (i : Int) * u.partSize ∧
        ReadAt w u.partSize i (offset u i) = .ok (min u.partSize (w.size - offset u i)) ∧
        bodyLen u w i = min u.partSize (w.size - offset u i) ∧
        ((i : Int) + 1 < totalParts u w.size → bodyLen u w i = u.partSize) ∧
        ((i : Int) + 1 = totalParts u w.size →
          bodyLen u w i
            = if w.size % u.partSize = 0 then u.partSize else w.size % u.partSize)) ∧
      (∀ (sched : List Nat) (uploadId : Option String), w.statErr = none →
        w.openErr = none → w.createMultipartUpload = .ok uploadId →
        u.concurrencyLimit ≠ 0 →
        ∀ i : Nat, (i : Int) < totalParts u w.size →
          Call.UploadPart uploadId ((i : Int) + 1)
              (min u.partSize (w.size - (i : Int) * u.partSize))
            ∈ (Upload u w sched).calls) := by
  obtain ⟨t1, t2, t3, t4⟩ := totalParts_spec u w.size hP hS h64
  refine ⟨totalParts_eq_ceil u w.size hP hS h64, t1, ?_, ?_⟩
  · intro i hi
    obtain ⟨o1, o2, o3⟩ := offset_spec u w.size hP hS h64 i hi
    have hr := readAt_spec u w hP hS h64 i hi (hread i)
    have hb : bodyLen u w i = min u.partSize (w.size - offset u i) := by
      unfold bodyLen
      rw [hr, o1]
    refine ⟨partNum_eq i (by omega), o1, by rw [hr, o1], hb, ?_, ?_⟩
    · intro hlt
      obtain ⟨_, _, o3b⟩ := offset_spec u w.size hP hS h64 (i + 1) (by push_cast; omega)
      have : ((i + 1 : Nat) : Int) * u.partSize = (i : Int) * u.partSize + u.partSize := by
        push_cast; ring
      rw [hb, o1]
      omega
    · intro heq
      have hl := last_length u w.size hP hS h64
      have hi1 : totalParts u w.size - 1 = (i : Int) := by omega
      rw [hi1] at hl
      rw [hb, o1, ← hl]
      have : totalParts u w.size * u.partSize = (i : Int) * u.partSize + u.partSize := by
        rw [← heq]; ring
      omega
  · intro sched uploadId hstat hopen hcreate hL i hi
    have hr := readAt_spec u w hP hS h64 i hi (hread i)
    have := uploadPart_issued u w uploadId sched hP hS h64 (by omega) hL hstat hopen hcreate
      i hi _ hr
    rwa [partNum_eq i (by omega)] at this

/-- Witness of C3: an 11-byte file cut into parts of 5 bytes. -/
theorem C3_part_plan_witness :
    totalParts ⟨5, 2⟩ (okWorld 11).size = 3 ∧
      bodyLen ⟨5, 2⟩ (okWorld 11) 2 = 1 ∧
      (totalParts ⟨5, 2⟩ (okWorld 11).size
          = ⌈((okWorld 11).size : ℚ) / (((⟨5, 2⟩ : S3Uploader).partSize : Int) : ℚ)⌉ ∧
        totalParts ⟨5, 2⟩ (okWorld 11).size
          = ((okWorld 11).size + (⟨5, 2⟩ : S3Uploader).partSize - 1)
              / (⟨5, 2⟩ : S3Uploader).partSize) :=
  ⟨by decide, by decide,
    (C3_part_plan ⟨5, 2⟩ (okWorld 11) (by decide) (by decide) (by decide) (by decide)
      (fun _ => rfl)).1,
    (C3_part_plan ⟨5, 2⟩ (okWorld 11) (by decide) (by decide) (by decide) (by decide)
      (fun _ => rfl)).2.1⟩

/-- Counterexample to C3 as stated: for a file of `2^31` bytes and a part size
of one byte the loop index `2^31 - 1` is below the number of parts, and its part
number `int32(2^31)` is `-2^31`, not `2^31`.  (With `size = 2^63 - 1` and
`partSize = 2^63 - 2` the number of parts overflows to zero.) -/
theorem C3_counterexample :
    (1 : Int) ≤ (⟨1, 1⟩ : S3Uploader).partSize ∧
      (⟨1, 1⟩ : S3Uploader).partSize < (2147483648 : Int) ∧
      totalParts ⟨1, 1⟩ 2147483648 = 2147483648 ∧
      ((2147483647 : Nat) : Int) < totalParts ⟨1, 1⟩ 2147483648 ∧
      partNum 2147483647 = -2147483648 ∧
      partNum 2147483647 ≠ ((2147483647 : Nat) : Int) + 1 ∧
      totalParts ⟨9223372036854775806, 1⟩ 9223372036854775807 = 0 := by
  decide

/-! ## C4 -/

/-- C4, amended.  For a readable file of `size > partSize >= 1` with
`size + partSize <= 2^63`, the byte ranges of the planned parts tile the file:
the first offset is zero, every length is positive, every part but the last
ends where the next one starts, the last one ends at `size`, and the lengths
add up to `size`. -/
theorem C4_parts_tile_file (u : S3Uploader) (w : World)
    (hP : 1 ≤ u.partSize) (hS : u.partSize < w.size)
    (h64 : w.size + u.partSize ≤ 9223372036854775808)
    (hread : ∀ i, w.readErr i = none) :
    offset u 0 = 0 ∧
      (∀ i : Nat, (i : Int) < totalParts u w.size →
        ReadAt w u.partSize i (offset u i) = .ok (bodyLen u w i) ∧
        0 < bodyLen u w i ∧
        ((i : Int) + 1 < totalParts u w.size →
          offset u (i + 1) = offset u i + bodyLen u w i) ∧
        ((i : Int) + 1 = totalParts u w.size → offset u i + bodyLen u w i = w.size)) ∧
      ((List.range (totalParts u w.size).toNat).map (bodyLen u w)).sum = w.size := by
  obtain ⟨t1, t2, t3, t4⟩ := totalParts_spec u w.size hP hS h64
  have hbody : ∀ i : Nat, (i : Int) < totalParts u w.size →
      bodyLen u w i = min u.partSize (w.size - (i : Int) * u.partSize) := by
    intro i hi
    unfold bodyLen
    rw [readAt_spec u w hP hS h64 i hi (hread i)]
  refine ⟨?_, ?_, ?_⟩
  · have := (offset_spec u w.size hP hS h64 0 (by simp; omega)).1
    simpa using this
  · intro i hi
    obtain ⟨o1, o2, o3⟩ := offset_spec u w.size hP hS h64 i hi
    refine ⟨?_, ?_, ?_, ?_⟩
    · rw [hbody i hi]
      exact readAt_spec u w hP hS h64 i hi (hread i)
    · rw [hbody i hi]
      omega
    · intro hlt
      obtain ⟨p1, _, p3⟩ := offset_spec u w.size hP hS h64 (i + 1) (by push_cast; omega)
      have : ((i + 1 : Nat) : Int) * u.partSize = (i : Int) * u.partSize + u.partSize := by
        push_cast; ring
      rw [p1, o1, hbody i hi]
      omega
    · intro heq
      have : totalParts u w.size * u.partSize = (i : Int) * u.partSize + u.partSize := by
        rw [← heq]; ring
      rw [o1, hbody i hi]
      omega
  · have hn0 : 0 ≤ totalParts u w.size := by omega
    have hnI : ((totalParts u w.size).toNat : Int) = totalParts u w.size :=
      Int.toNat_of_nonneg hn0
    have hmap : (List.range (totalParts u w.size).toNat).map (bodyLen u w)
        = (List.range (totalParts u w.size).toNat).map
            (fun i : Nat => min u.partSize (w.size - (i : Int) * u.partSize)) := by
      apply List.map_congr_left
      intro i hi
      rw [List.mem_range] at hi
      exact hbody i (by omega)
    rw [hmap, sum_lengths u w.size hP hS h64 _ (by omega), hnI]
    omega

/-- Witness of C4: an 11-byte file cut into parts of 5 bytes. -/
theorem C4_parts_tile_file_witness :
    offset ⟨5, 2⟩ 0 = 0 ∧
      ((List.range (totalParts ⟨5, 2⟩ (okWorld 11).size).toNat).map
        (bodyLen ⟨5, 2⟩ (okWorld 11))).sum = (okWorld 11).size :=
  ⟨(C4_parts_tile_file ⟨5, 2⟩ (okWorld 11) (by decide) (by decide) (by decide)
      (fun _ => rfl)).1,
    (C4_parts_tile_file ⟨5, 2⟩ (okWorld 11) (by decide) (by decide) (by decide)
      (fun _ => rfl)).2.2⟩

/-- Counterexample to C4 as stated: with `size = 2^63 - 1` and
`partSize = 2^63 - 2` the number of parts overflows to zero, so that no part is
planned and the lengths add up to zero instead of `size`. -/
theorem C4_counterexample :
    (1 : Int) ≤ (⟨9223372036854775806, 1⟩ : S3Uploader).partSize ∧
      (⟨9223372036854775806, 1⟩ : S3Uploader).partSize < (okWorld 9223372036854775807).size ∧
      totalParts ⟨9223372036854775806, 1⟩ (okWorld 9223372036854775807).size = 0 ∧
      ((List.range
          (totalParts ⟨9223372036854775806, 1⟩ (okWorld 9223372036854775807).size).toNat).map
        (bodyLen ⟨9223372036854775806, 1⟩ (okWorld 9223372036854775807))).sum
        ≠ (okWorld 9223372036854775807).size := by
  decide

/-! ## C5, C6, C7: a failed part task -/

/-- When some part task fails and `Upload` returns, it has called
`AbortMultipartUpload` once, last, with the upload id of the session, it has not
called `CompleteMultipartUpload`, and it returns the result of the abort call,
or `fmt.Errorf` of a nil error when that call succeeded. -/
theorem upload_after_failure (u : S3Uploader) (w : World) (uploadId : Option String)
    (sched : List Nat) (hS : u.partSize < w.size)
    (hstat : w.statErr = none) (hopen : w.openErr = none)
    (hcreate : w.createMultipartUpload = .ok uploadId)
    (i : Nat) (hi : (i : Int) < totalParts u w.size) (hfail : taskErr u w i ≠ none)
    (e : Option GoError) (hret : (Upload u w sched).outcome = .returned e) :
    ∃ calls : List Call,
      Upload u w sched
        = ⟨.returned (some (match w.abortMultipartUpload with
              | some a => a
              | none => GoError.wrapNil "multipartUpload: %w")),
            calls ++ [Call.AbortMultipartUpload uploadId], []⟩ ∧
      calls.countP Call.isCompleteMultipartUpload = 0 ∧
      calls.countP Call.isAbortMultipartUpload = 0 := by
  have hU : Upload u w sched = multipartUpload u w sched w.size := by
    unfold Upload
    rw [hstat, if_neg (by omega)]
  have hn0 : 0 ≤ totalParts u w.size := by omega
  by_cases hP : u.partSize = 0
  · rw [hU] at hret
    simp [multipartUpload, hopen, hcreate, hP] at hret
  · rw [hU, multipartUpload_unfold u w sched w.size uploadId hopen hcreate hP hn0] at hret ⊢
    generalize hnd : (totalParts u w.size).toNat = n at hret ⊢
    have hnI : (n : Int) = totalParts u w.size := by
      rw [← hnd]; exact Int.toNat_of_nonneg hn0
    obtain ⟨hp, he, hl⟩ := finish_returned hret
    obtain ⟨⟨_, _, _, _, s5, s6⟩, _, ⟨_, f2, _⟩, _⟩ :=
      egRun_invariants u w uploadId n (3 * n) sched
    have herr := f2 i (all_finished he i (by omega)) hfail
    obtain ⟨e0, he0⟩ := Option.ne_none_iff_exists'.1 herr
    exact ⟨_, finish_abort hp he hl he0, s5, s6⟩

/-- With a limit other than zero and without overflow, `Upload` on the
multipart path returns, whatever the schedule. -/
theorem upload_returns (u : S3Uploader) (w : World) (uploadId : Option String)
    (sched : List Nat) (hP : 1 ≤ u.partSize) (hS : u.partSize < w.size)
    (h64 : w.size + u.partSize ≤ 9223372036854775808)
    (h32 : totalParts u w.size ≤ 2147483648) (hL : u.concurrencyLimit ≠ 0)
    (hstat : w.statErr = none) (hopen : w.openErr = none)
    (hcreate : w.createMultipartUpload = .ok uploadId) :
    ∃ e, (Upload u w sched).outcome = .returned e := by
  obtain ⟨_, _, _, h2⟩ := totalParts_spec u w.size hP hS h64
  have hn0 : 0 ≤ totalParts u w.size := by omega
  have hU : Upload u w sched = multipartUpload u w sched w.size := by
    unfold Upload
    rw [hstat, if_neg (by omega)]
  rw [hU, multipartUpload_unfold u w sched w.size uploadId hopen hcreate (by omega) hn0]
  generalize hnd : (totalParts u w.size).toNat = n
  have hnI : (n : Int) = totalParts u w.size := by rw [← hnd]; exact Int.toNat_of_nonneg hn0
  obtain ⟨hp, he, hlen⟩ := group_settles u w uploadId n sched (by omega) (by omega) hL
  cases herr : (egRun u w uploadId n (3 * n) sched
      (egInit n [Call.CreateMultipartUpload])).err with
  | none => exact ⟨_, by rw [finish_complete hp he (by omega) herr]⟩
  | some e0 => exact ⟨_, by rw [finish_abort hp he (by omega) herr]⟩

/-- C5. In a multipart upload (`size > partSize >= 1`, session created) in
which a part task fails, once all tasks have settled (`Upload` returns) no
`CompleteMultipartUpload` call was made and exactly one `AbortMultipartUpload`
call was made, for the upload id `CreateMultipartUpload` returned; and with a
limit other than zero and without integer overflow the tasks do settle, under
every schedule. -/
theorem C5_failure_aborts (u : S3Uploader) (w : World) (uploadId : Option String)
    (sched : List Nat) (hP : 1 ≤ u.partSize) (hS : u.partSize < w.size)
    (hstat : w.statErr = none) (hopen : w.openErr = none)
    (hcreate : w.createMultipartUpload = .ok uploadId)
    (i : Nat) (hi : (i : Int) < totalParts u w.size) (hfail : taskErr u w i ≠ none) :
    (∀ e, (Upload u w sched).outcome = .returned e →
        (Upload u w sched).calls.countP Call.isCompleteMultipartUpload = 0 ∧
        (Upload u w sched).calls.countP Call.isAbortMultipartUpload = 1 ∧
        Call.AbortMultipartUpload uploadId ∈ (Upload u w sched).calls) ∧
      (u.concurrencyLimit ≠ 0 → w.size + u.partSize ≤ 9223372036854775808 →
        totalParts u w.size ≤ 2147483648 →
        ∃ e, (Upload u w sched).outcome = .returned e) := by
  refine ⟨fun e hret => ?_, fun hL h64 h32 =>
    upload_returns u w uploadId sched hP hS h64 h32 hL hstat hopen hcreate⟩
  obtain ⟨calls, hU, h5, h6⟩ :=
    upload_after_failure u w uploadId sched hS hstat hopen hcreate i hi hfail e hret
  rw [hU]
  simp [List.countP_append, h5, h6, Call.isCompleteMultipartUpload,
    Call.isAbortMultipartUpload]

/-- Witness of C5: the second of three parts fails, the abort succeeds. -/
theorem C5_failure_aborts_witness :
    (Upload ⟨5, 2⟩ (partFailWorld 11 1 (.leaf 7) none) [2, 0, 1]).outcome
        = .returned (some (.wrapNil "multipartUpload: %w")) ∧
      ((∀ e, (Upload ⟨5, 2⟩ (partFailWorld 11 1 (.leaf 7) none) [2, 0, 1]).outcome
            = .returned e →
          (Upload ⟨5, 2⟩ (partFailWorld 11 1 (.leaf 7) none) [2, 0, 1]).calls.countP
            Call.isCompleteMultipartUpload = 0 ∧
          (Upload ⟨5, 2⟩ (partFailWorld 11 1 (.leaf 7) none) [2, 0, 1]).calls.countP
            Call.isAbortMultipartUpload = 1 ∧
          Call.AbortMultipartUpload (some "upload-id")
            ∈ (Upload ⟨5, 2⟩ (partFailWorld 11 1 (.leaf 7) none) [2, 0, 1]).calls) ∧
        ((⟨5, 2⟩ : S3Uploader).concurrencyLimit ≠ 0 →
          (partFailWorld 11 1 (.leaf 7) none).size + (⟨5, 2⟩ : S3Uploader).partSize
            ≤ 9223372036854775808 →
          totalParts ⟨5, 2⟩ (partFailWorld 11 1 (.leaf 7) none).size ≤ 2147483648 →
          ∃ e, (Upload ⟨5, 2⟩ (partFailWorld 11 1 (.leaf 7) none) [2, 0, 1]).outcome
            = .returned e)) :=
  ⟨by decide,
    C5_failure_aborts ⟨5, 2⟩ (partFailWorld 11 1 (.leaf 7) none) (some "upload-id") [2, 0, 1]
      (by decide) (by decide) rfl rfl rfl 1 (by decide) (by decide)⟩

/-- C6, the code at a failing input: an 11-byte file, parts of 5 bytes, the
`UploadPart` call of part number 2 fails with `leaf 7` and the abort succeeds.
The part task returns an error that names part 2 and wraps `leaf 7`, but
`Upload` returns `fmt.Errorf("multipartUpload: %w", err)` on the nil `err` of
the abort call, which wraps nothing and names no part. -/
theorem C6_part_error_lost :
    taskErr ⟨5, 2⟩ (partFailWorld 11 1 (.leaf 7) none) 1
        = some (.wrap "uploadPart #%d: %w" (some 2) (.leaf 7)) ∧
      (Upload ⟨5, 2⟩ (partFailWorld 11 1 (.leaf 7) none) []).outcome
        = .returned (some (.wrapNil "multipartUpload: %w")) ∧
      (Upload ⟨5, 2⟩ (partFailWorld 11 1 (.leaf 7) none) []).calls.countP
        Call.isAbortMultipartUpload = 1 ∧
      GoError.Is (.wrapNil "multipartUpload: %w") (.leaf 7) = false ∧
      GoError.Unwrap (.wrapNil "multipartUpload: %w") = none ∧
      GoError.partNums (.wrapNil "multipartUpload: %w") = [] := by
  decide

/-- C7. In a multipart upload in which a part task fails and the
`AbortMultipartUpload` call fails with `a`, whenever `Upload` returns it returns
`a`; and with a limit other than zero and without integer overflow it does
return, under every schedule. -/
theorem C7_abort_failure_returned (u : S3Uploader) (w : World) (uploadId : Option String)
    (sched : List Nat) (a : GoError) (hS : u.partSize < w.size)
    (hstat : w.statErr = none) (hopen : w.openErr = none)
    (hcreate : w.createMultipartUpload = .ok uploadId)
    (i : Nat) (hi : (i : Int) < totalParts u w.size) (hfail : taskErr u w i ≠ none)
    (habort : w.abortMultipartUpload = some a) :
    (∀ e, (Upload u w sched).outcome = .returned e → e = some a) ∧
      (u.concurrencyLimit ≠ 0 → 1 ≤ u.partSize →
        w.size + u.partSize ≤ 9223372036854775808 →
        totalParts u w.size ≤ 2147483648 →
        (Upload u w sched).outcome = .returned (some a)) := by
  have key : ∀ e, (Upload u w sched).outcome = .returned e → e = some a := by
    intro e hret
    obtain ⟨calls, hU, _, _⟩ :=
      upload_after_failure u w uploadId sched hS hstat hopen hcreate i hi hfail e hret
    rw [hU, habort] at hret
    simp only [Outcome.returned.injEq] at hret
    exact hret.symm
  refine ⟨key, fun hL hP h64 h32 => ?_⟩
  obtain ⟨e, he⟩ := upload_returns u w uploadId sched hP hS h64 h32 hL hstat hopen hcreate
  rw [he, key e he]

/-- Witness of C7: the second of three parts fails, and so does the abort. -/
theorem C7_abort_failure_returned_witness :
    (∀ e, (Upload ⟨5, 2⟩ (partFailWorld 11 1 (.leaf 7) (some (.leaf 8))) [1, 3]).outcome
          = .returned e → e = some (.leaf 8)) ∧
      ((⟨5, 2⟩ : S3Uploader).concurrencyLimit ≠ 0 → 1 ≤ (⟨5, 2⟩ : S3Uploader).partSize →
        (partFailWorld 11 1 (.leaf 7) (some (.leaf 8))).size + (⟨5, 2⟩ : S3Uploader).partSize
          ≤ 9223372036854775808 →
        totalParts ⟨5, 2⟩ (partFailWorld 11 1 (.leaf 7) (some (.leaf 8))).size ≤ 2147483648 →
        (Upload ⟨5, 2⟩ (partFailWorld 11 1 (.leaf 7) (some (.leaf 8))) [1, 3]).outcome
          = .returned (some (.leaf 8))) :=
  C7_abort_failure_returned ⟨5, 2⟩ (partFailWorld 11 1 (.leaf 7) (some (.leaf 8)))
    (some "upload-id") [1, 3] (.leaf 8) (by decide) rfl rfl rfl 1 (by decide) (by decide) rfl

/-! ## C8 -/

/-- C8, amended.  In a single-shot upload (`size <= partSize`) whose `PutObject`
succeeds, `Upload` calls the object-exists waiter and returns its result: `nil`
when the wait succeeds, the error of the wait, which is also logged, when it fails. -/
theorem C8_wait_result_returned (u : S3Uploader) (w : World) (sched : List Nat)
    (hstat : w.statErr = none) (hle : w.size ≤ u.partSize) (hopen : w.openErr = none)
    (hput : w.putObject = none) :
    (Upload u w sched).outcome = .returned w.objectExistsWait ∧
      (Upload u w sched).calls = [Call.PutObject, Call.ObjectExistsWait] ∧
      (w.objectExistsWait = none → (Upload u w sched).logs = []) ∧
      (∀ e, w.objectExistsWait = some e →
        (Upload u w sched).outcome = .returned (some e) ∧
        (Upload u w sched).logs = [LogLine.failedWait]) := by
  have hU : Upload u w sched = simpleUpload u w := by
    unfold Upload
    rw [hstat, if_pos hle]
  rw [hU]
  unfold simpleUpload
  rw [hopen, hput]
  cases hw : w.objectExistsWait with
  | none => simp
  | some e => simp

/-- Witness of C8: a 5-byte file, a part size of 5 bytes, the wait fails. -/
theorem C8_wait_result_returned_witness :
    (Upload ⟨5, 2⟩ { okWorld 5 with objectExistsWait := some (.leaf 9) } []).outcome
        = .returned (some (.leaf 9)) ∧
      (Upload ⟨5, 2⟩ { okWorld 5 with objectExistsWait := some (.leaf 9) } []).logs
        = [LogLine.failedWait] :=
  (C8_wait_result_returned ⟨5, 2⟩ { okWorld 5 with objectExistsWait := some (.leaf 9) } []
    rfl (by decide) rfl rfl).2.2.2 (.leaf 9) rfl

/-- Counterexample to C8 as stated: the file is stat-ed and opened, `PutObject`
succeeds and the object-exists wait fails with `leaf 9`; `Upload` does not
return `nil` but that error. -/
theorem C8_counterexample :
    ({ okWorld 5 with objectExistsWait := some (.leaf 9) } : World).size
        ≤ (⟨5, 2⟩ : S3Uploader).partSize ∧
      ({ okWorld 5 with objectExistsWait := some (.leaf 9) } : World).putObject = none ∧
      Call.PutObject
        ∈ (Upload ⟨5, 2⟩ { okWorld 5 with objectExistsWait := some (.leaf 9) } []).calls ∧
      (Upload ⟨5, 2⟩ { okWorld 5 with objectExistsWait := some (.leaf 9) } []).outcome
        ≠ .returned none ∧
      (Upload ⟨5, 2⟩ { okWorld 5 with objectExistsWait := some (.leaf 9) } []).outcome
        = .returned (some (.leaf 9)) := by
  decide

/-! ## C9 -/

/-- C9. With a limit `L >= 1`, under every schedule and after any number of
events, at most `L` `UploadPart` calls are outstanding; and the limit stops no
task: unless the process panics, the group ends with all `n` tasks launched
and returned, and without a negative part size and with at most `2^31` parts it
does not panic. -/
theorem C9_concurrency_limit (u : S3Uploader) (w : World) (uploadId : Option String)
    (n : Nat) (sched : List Nat) (hL : 1 ≤ u.concurrencyLimit) :
    (∀ k : Nat,
        (inFlight (egRun u w uploadId n k sched
          (egInit n [Call.CreateMultipartUpload])).tasks : Int) ≤ u.concurrencyLimit) ∧
      ((egRun u w uploadId n (3 * n) sched
          (egInit n [Call.CreateMultipartUpload])).panicked = false →
        (egRun u w uploadId n (3 * n) sched
            (egInit n [Call.CreateMultipartUpload])).tasks.length = n ∧
        ∀ i, i < n →
          (egRun u w uploadId n (3 * n) sched
            (egInit n [Call.CreateMultipartUpload])).tasks[i]? = some Phase.finished) ∧
      (0 ≤ u.partSize → n ≤ 2147483648 →
        (egRun u w uploadId n (3 * n) sched
          (egInit n [Call.CreateMultipartUpload])).panicked = false) := by
  refine ⟨fun k => ?_, fun hp => ?_, fun hP hn => egRun_noPanic u w uploadId n hP hn _ sched⟩
  · obtain ⟨_, hlim, _, _⟩ := egRun_invariants u w uploadId n k sched
    have h1 := hlim (by omega)
    have h2 := inFlight_le_active
      (egRun u w uploadId n k sched (egInit n [Call.CreateMultipartUpload])).tasks
    omega
  · have he : enabled u n (egRun u w uploadId n (3 * n) sched
        (egInit n [Call.CreateMultipartUpload])) = [] := by
      rcases group_end u w uploadId n sched with h | h
      · rw [hp] at h
        exact absurd h (by simp)
      · exact h
    have hsh := (egRun_invariants u w uploadId n (3 * n) sched).1
    have hlen := le_antisymm hsh.2.1 (all_launched he (show u.concurrencyLimit ≠ 0 by omega))
    exact ⟨hlen, fun i hi => all_finished he i (by omega)⟩

/-- Witness of C9: three parts under a limit of two; after four events two
calls are outstanding, and at the end all three tasks have returned. -/
theorem C9_concurrency_limit_witness :
    inFlight (egRun ⟨5, 2⟩ (okWorld 11) (some "upload-id") 3 4 [0, 1, 0, 1]
        (egInit 3 [Call.CreateMultipartUpload])).tasks = 2 ∧
      (egRun ⟨5, 2⟩ (okWorld 11) (some "upload-id") 3 (3 * 3) [0, 1, 0, 1]
        (egInit 3 [Call.CreateMultipartUpload])).tasks.length = 3 ∧
      ∀ k : Nat,
        (inFlight (egRun ⟨5, 2⟩ (okWorld 11) (some "upload-id") 3 k [0, 1, 0, 1]
          (egInit 3 [Call.CreateMultipartUpload])).tasks : Int)
          ≤ (⟨5, 2⟩ : S3Uploader).concurrencyLimit :=
  ⟨by decide, by decide,
    (C9_concurrency_limit ⟨5, 2⟩ (okWorld 11) (some "upload-id") 3 [0, 1, 0, 1] (by decide)).1⟩

/-! ## C10 -/

theorem egRun_of_enabled_nil (u : S3Uploader) (w : World) (uploadId : Option String) (n : Nat)
    (fuel : Nat) (sched : List Nat) (st : EgState) (h : enabled u n st = []) :
    egRun u w uploadId n fuel sched st = st := by
  cases fuel with
  | zero => rfl
  | succ k =>
    unfold egRun
    rw [h]
    split
    · rfl
    · simp [pick]

/-- C10, the code at a failing input: `NewS3Uploader` accepts a limit of zero
with a nil error, and `Upload` of an 11-byte file with parts of 5 bytes then
creates the session and blocks in the first `eg.Go`, under every schedule: no
part is started and neither `CompleteMultipartUpload` nor
`AbortMultipartUpload` is reached. -/
theorem C10_zero_limit_blocks :
    NewS3Uploader ⟨"us-east-1", "dummy", "dummy", ""⟩ 5 0 = .ok ⟨5, 0⟩ ∧
      totalParts ⟨5, 0⟩ (okWorld 11).size = 3 ∧
      ∀ sched : List Nat,
        Upload ⟨5, 0⟩ (okWorld 11) sched
          = ⟨.blocked, [Call.CreateMultipartUpload], []⟩ := by
  refine ⟨rfl, by decide, fun sched => ?_⟩
  have hU : Upload ⟨5, 0⟩ (okWorld 11) sched
      = multipartUpload ⟨5, 0⟩ (okWorld 11) sched (okWorld 11).size := by
    unfold Upload
    rw [show (okWorld 11).statErr = none from rfl,
      if_neg (show ¬ (okWorld 11).size ≤ (⟨5, 0⟩ : S3Uploader).partSize by decide)]
  rw [hU, multipartUpload_unfold ⟨5, 0⟩ (okWorld 11) sched (okWorld 11).size (some "upload-id")
    rfl rfl (by decide) (by decide)]
  rw [egRun_of_enabled_nil _ _ _ _ _ _ _ (by decide)]
  decide

/-! ## Fuel -/

theorem finish_ne_running (u : S3Uploader) (w : World) (uploadId : Option String) (n : Nat)
    (st : EgState) (h : st.panicked = true ∨ enabled u n st = []) :
    (finish u w uploadId n st).outcome ≠ .running := by
  unfold finish
  by_cases hp : st.panicked = true
  · rw [if_pos hp]
    simp
  · have he : enabled u n st = [] := h.resolve_left hp
    rw [if_neg hp, if_neg (by simp [he])]
    split
    · simp
    · split
      · split <;> simp
      · simp

/-- The fuel `multipartUpload` gives the group is enough: `Upload` never ends
with part tasks still runnable. -/
theorem upload_outcome_ne_running (u : S3Uploader) (w : World) (sched : List Nat) :
    (Upload u w sched).outcome ≠ .running := by
  unfold Upload
  cases w.statErr with
  | some e => simp
  | none =>
    by_cases hle : w.size ≤ u.partSize
    · simp only [hle, if_true]
      unfold simpleUpload
      cases w.openErr <;> cases w.putObject <;> cases w.objectExistsWait <;> simp
    · simp only [hle, if_false]
      cases hopen : w.openErr with
      | some e => simp [multipartUpload, hopen]
      | none =>
        cases hcreate : w.createMultipartUpload with
        | error e => simp [multipartUpload, hopen, hcreate]
        | ok uploadId =>
          by_cases hP : u.partSize = 0
          · simp [multipartUpload, hopen, hcreate, hP]
          · by_cases hn : totalParts u w.size < 0
            · simp [multipartUpload, hopen, hcreate, hP, hn]
            · rw [multipartUpload_unfold u w sched w.size uploadId hopen hcreate hP (by omega)]
              exact finish_ne_running u w uploadId _ _ (group_end u w uploadId _ sched)

/-! ## C11 -/

/-- A task whose read fails with an error other than `io.EOF`, or whose
`UploadPart` call fails, returns an error. -/
theorem taskErr_ne_none_of_failure (u : S3Uploader) (w : World) (i : Nat)
    (h : (∃ e, w.readErr i = some e) ∨ (∃ e, w.uploadPart i = .error e)) :
    taskErr u w i ≠ none := by
  unfold taskErr
  cases hr : ReadAt w u.partSize i (offset u i) with
  | error e => simp
  | ok r =>
    rcases h with ⟨e, he⟩ | ⟨e, he⟩
    · exfalso
      unfold ReadAt at hr
      rw [he] at hr
      split at hr <;> simp at hr
    · rw [he]
      simp

/-- C11. In a multipart upload (`size > partSize >= 1`, a limit of at least
one, session created) in which a part task fails, by a read error other than
`io.EOF` or by an `UploadPart` error, `Upload` never returns `nil`: whenever it
returns, it returns the error of `AbortMultipartUpload` when the abort fails
and a non-nil error made by `fmt.Errorf` when the abort succeeds; and without
integer overflow it does return, under every schedule. -/
theorem C11_part_failure_never_success (u : S3Uploader) (w : World)
    (uploadId : Option String) (sched : List Nat)
    (hP : 1 ≤ u.partSize) (hS : u.partSize < w.size) (hL : 1 ≤ u.concurrencyLimit)
    (hstat : w.statErr = none) (hopen : w.openErr = none)
    (hcreate : w.createMultipartUpload = .ok uploadId)
    (i : Nat) (hi : (i : Int) < totalParts u w.size)
    (hfail : (∃ e, w.readErr i = some e) ∨ (∃ e, w.uploadPart i = .error e)) :
    (Upload u w sched).outcome ≠ .returned none ∧
      (w.abortMultipartUpload = none →
        ∀ e, (Upload u w sched).outcome = .returned e →
          e = some (GoError.wrapNil "multipartUpload: %w")) ∧
      (∀ a, w.abortMultipartUpload = some a →
        ∀ e, (Upload u w sched).outcome = .returned e → e = some a) ∧
      (w.size + u.partSize ≤ 9223372036854775808 → totalParts u w.size ≤ 2147483648 →
        ∃ err, (Upload u w sched).outcome = .returned (some err)) := by
  have hne := taskErr_ne_none_of_failure u w i hfail
  have key : ∀ e, (Upload u w sched).outcome = .returned e →
      e = some (match w.abortMultipartUpload with
        | some a => a
        | none => GoError.wrapNil "multipartUpload: %w") := by
    intro e hret
    obtain ⟨calls, hU, _, _⟩ :=
      upload_after_failure u w uploadId sched hS hstat hopen hcreate i hi hne e hret
    rw [hU] at hret
    simp only [Outcome.returned.injEq] at hret
    exact hret.symm
  refine ⟨fun hnil => ?_, fun hab e hret => ?_, fun a hab e hret => ?_, fun h64 h32 => ?_⟩
  · have := key none hnil
    exact absurd this (by simp)
  · have := key e hret
    rw [hab] at this
    exact this
  · have := key e hret
    rw [hab] at this
    exact this
  · obtain ⟨e, he⟩ := upload_returns u w uploadId sched hP hS h64 h32
      (show u.concurrencyLimit ≠ 0 by omega) hstat hopen hcreate
    have := key e he
    rw [this] at he
    exact ⟨_, he⟩

/-- Witness of C11: the read of the third part of an 11-byte file fails and the
abort succeeds; `Upload` returns a non-nil error. -/
theorem C11_part_failure_never_success_witness :
    (Upload ⟨5, 2⟩
        { okWorld 11 with readErr := fun i => if i = 2 then some (.leaf 3) else none }
        [1, 0, 1]).outcome = .returned (some (.wrapNil "multipartUpload: %w")) ∧
      (Upload ⟨5, 2⟩
        { okWorld 11 with readErr := fun i => if i = 2 then some (.leaf 3) else none }
        [1, 0, 1]).outcome ≠ .returned none :=
  ⟨by decide,
    (C11_part_failure_never_success ⟨5, 2⟩
      { okWorld 11 with readErr := fun i => if i = 2 then some (.leaf 3) else none }
      (some "upload-id") [1, 0, 1] (by decide) (by decide) (by decide) rfl rfl rfl 2
      (by decide) (Or.inl ⟨.leaf 3, rfl⟩)).1⟩

end Uploader
